import Mathlib

/-!
# Verification of the JSONPath template-resolution engine
  (bundled library in `src/dist/index.js`)

This development is a shallow embedding, in Lean 4, of the parts of the
bundled library that the specification's testable properties concern:

* the jsep expression parser's binary-operator machinery
  (`Jsep.gobbleBinaryExpression`, lines 644-720 of `dist/index.js`),
* the restricted evaluator `SafeEval` (lines 1381-1524) and
  `SafeScript.runInNewContext` (lines 1529-1548),
* the JSONPath query engine (`JSONPath.prototype.evaluate`, `_trace`,
  `_walk`, `_slice`, lines 1735-2110), and
* the template resolver (`resolveTemplateString`, `extractJsonPathValue`,
  `injectSgnlNamespace`, `resolveJsonPathTemplates`, lines 2253-2472).

Modelling conventions, used throughout and noted again at each definition:

* JavaScript numbers (IEEE-754 doubles) are idealized as exact rationals
  `ℚ`.  Every claim below either does not depend on numeric rounding at
  all (the parser claims are proved through AST equality, which holds for
  any interpretation of the operators) or only evaluates exact small
  integer arithmetic, where doubles and rationals agree.
* JavaScript objects are modelled as association lists with distinct keys
  (`List (String × JVal)`); the prototype chain is not modelled, matching
  the library's own use of `Object.hasOwn` for every lookup it performs.
* Recursions that are not structural in the JavaScript source (the
  JSONPath `_trace` / `_slice` loops, whose termination can genuinely fail
  for adversarial evaluator callbacks) are given an explicit fuel
  parameter; fuel plays the role of the call stack, and every theorem
  quantifies over (or fixes) sufficient fuel.
-/

/-! ## Part A: the jsep binary-expression parser (claim C1)

`Jsep.gobbleBinaryExpression` (dist/index.js:644-720) parses a run of
already-gobbled operand tokens separated by binary operators, using an
explicit operand/operator stack.  Claim C1 quantifies over expressions
built from numeric literals, parentheses and the operators
`+ - * / % **`, so the operator universe here is exactly those six, with
the precedences of `Jsep.binary_ops` (dist/index.js:1151-1175): `+ -` at
9, `* / %` at 10, `**` at 11, and `Jsep.right_associative = {'**'}`
(dist/index.js:1177).

The embedding is at token level: `gobbleToken` (which reads a numeric
literal or a parenthesized group) is represented by operand AST nodes
that have already been produced, exactly as the stack algorithm receives
them in the source; the nesting of parenthesized groups is restored by
`NExp` below.
-/

/-- The six binary operators of claim C1, a sub-table of
`Jsep.binary_ops` (dist/index.js:1169-1174). -/
inductive AOp where
  | add | sub | mul | div | mod | pow
deriving DecidableEq, Repr

namespace AOp

/-- `Jsep.binary_ops[op]` (dist/index.js:1169-1174). -/
def prec : AOp → Nat
  | .add => 9 | .sub => 9
  | .mul => 10 | .div => 10 | .mod => 10
  | .pow => 11

/-- `Jsep.right_associative.has(op)` (dist/index.js:1177). -/
def rightA : AOp → Bool
  | .pow => true
  | _ => false

end AOp

/-- Arithmetic expression ASTs: the `Literal` and `BinaryExpression`
node shapes jsep produces (dist/index.js:694-699, 903-907), restricted
to claim C1's fragment. -/
inductive AExp where
  | lit (v : ℚ)
  | bin (op : AOp) (left right : AExp)
deriving DecidableEq, Repr

/-- The reduction guard of the stack loop
(`comparePrev`, dist/index.js:689):
`biop_info.right_a && prev.right_a ? prec > prev.prec : prec <= prev.prec`. -/
def comparePrev (cur prev : AOp) : Bool :=
  if cur.rightA && prev.rightA then prev.prec < cur.prec else cur.prec ≤ prev.prec

/-- The inner `while (stack.length > 2 && comparePrev(...))` reduction
(dist/index.js:690-701).  The stack `[e0, op1, e1, ..., opk, ek]` is
represented with its top element `top = ek` split off and the rest
reversed, as `below = [(opk, e(k-1)), ..., (op1, e0)]`, so the source's
`stack[stack.length - 2]` is the head of `below`. -/
def reduceWhile (cur : AOp) (top : AExp) : List (AOp × AExp) → AExp × List (AOp × AExp)
  | [] => (top, [])
  | (o, l) :: tl =>
    if comparePrev cur o then reduceWhile cur (.bin o l top) tl else (top, (o, l) :: tl)

/-- The final unwinding after the token loop (dist/index.js:708-718):
`node = stack[i]; while (i > 1) node = Bin(stack[i-1], stack[i-2], node)`. -/
def finalFold (top : AExp) (below : List (AOp × AExp)) : AExp :=
  below.foldl (fun node (p : AOp × AExp) => .bin p.1 p.2 node) top

/-- The token loop of `gobbleBinaryExpression` (dist/index.js:675-707):
for each further operator/operand pair, reduce by `comparePrev`, then
push.  (The `prec === 0` bail-out for unknown operators cannot fire:
every `AOp` is in the table.) -/
def jsepLoop : List (AOp × AExp) → AExp → List (AOp × AExp) → AExp
  | [], top, below => finalFold top below
  | (op, a) :: tl, top, below =>
    let r := reduceWhile op top below
    jsepLoop tl a ((op, r.1) :: r.2)

/-- `Jsep.gobbleBinaryExpression` (dist/index.js:644-720) over a
pre-tokenized operand/operator stream: `left` is the first gobbled
token; with no operator it is returned as-is (line 657-659); otherwise
the stack starts as `[left, biop, right]` (line 672) and the loop runs. -/
def jsepFlat (left : AExp) : List (AOp × AExp) → AExp
  | [] => left
  | (op1, right) :: tl => jsepLoop tl right [(op1, left)]

/-! ### The reference parser

The specification's reference semantics (spec §8): "the same expression
under standard operator precedence and left/right associativity rules
(`**` right-associative, all others left-associative)".  It is
transcribed as the classic layered grammar

    addExpr := mulExpr (('+'|'-') mulExpr)*     -- left-associative
    mulExpr := powExpr (('*'|'/'|'%') powExpr)* -- left-associative
    powExpr := atom ('**' powExpr)?             -- right-associative

over the same token stream. -/

def AOp.isMulLevel : AOp → Bool
  | .mul => true | .div => true | .mod => true
  | _ => false

def AOp.isAddLevel : AOp → Bool
  | .add => true | .sub => true
  | _ => false

/-- `powExpr := atom ('**' powExpr)?` — right-associative. -/
def parsePow (a : AExp) : List (AOp × AExp) → AExp × List (AOp × AExp)
  | [] => (a, [])
  | (op, b) :: tl =>
    if op = .pow then
      let r := parsePow b tl
      (.bin .pow a r.1, r.2)
    else (a, (op, b) :: tl)

theorem parsePow_length (a : AExp) (l : List (AOp × AExp)) :
    (parsePow a l).2.length ≤ l.length := by
  induction l generalizing a with
  | nil => simp [parsePow]
  | cons hd tl ih =>
    obtain ⟨op, b⟩ := hd
    by_cases h : op = AOp.pow
    · simpa [parsePow, h] using (ih b).trans (Nat.le_succ _)
    · simp [parsePow, h]

/-- `mulExpr` continuation: left-fold further `* / %` operands. -/
def parseMulLoop (lhs : AExp) (l : List (AOp × AExp)) : AExp × List (AOp × AExp) :=
  match l with
  | [] => (lhs, [])
  | (op, b) :: tl =>
    if op.isMulLevel then
      let r := parsePow b tl
      parseMulLoop (.bin op lhs r.1) r.2
    else (lhs, (op, b) :: tl)
termination_by l.length
decreasing_by
  simp only [List.length_cons]
  exact Nat.lt_succ_of_le (parsePow_length _ _)

/-- `mulExpr := powExpr (('*'|'/'|'%') powExpr)*`. -/
def parseMul (a : AExp) (l : List (AOp × AExp)) : AExp × List (AOp × AExp) :=
  let r := parsePow a l
  parseMulLoop r.1 r.2

theorem parseMulLoop_length (lhs : AExp) (l : List (AOp × AExp)) :
    (parseMulLoop lhs l).2.length ≤ l.length := by
  induction lhs, l using parseMulLoop.induct with
  | case1 lhs => simp [parseMulLoop]
  | case2 lhs op b tl h r ih =>
    rw [parseMulLoop]
    simp only [h, if_true]
    exact ih.trans ((parsePow_length _ _).trans (Nat.le_succ _))
  | case3 lhs op b tl h =>
    simp [parseMulLoop, h]

theorem parseMul_length (a : AExp) (l : List (AOp × AExp)) :
    (parseMul a l).2.length ≤ l.length :=
  (parseMulLoop_length _ _).trans (parsePow_length a l)

/-- `addExpr` continuation: left-fold further `+ -` operands. -/
def parseAddLoop (lhs : AExp) (l : List (AOp × AExp)) : AExp × List (AOp × AExp) :=
  match l with
  | [] => (lhs, [])
  | (op, b) :: tl =>
    if op.isAddLevel then
      let r := parseMul b tl
      parseAddLoop (.bin op lhs r.1) r.2
    else (lhs, (op, b) :: tl)
termination_by l.length
decreasing_by
  simp only [List.length_cons]
  exact Nat.lt_succ_of_le (parseMul_length _ _)

/-- The reference parse: `addExpr` over the whole token stream. -/
def refFlat (a : AExp) (l : List (AOp × AExp)) : AExp :=
  let r := parseMul a l
  (parseAddLoop r.1 r.2).1

/-! ### Equivalence of the stack machine and the reference parser

The machine's reachable stacks have a rigid shape: operator precedences
strictly increase from the bottom of the stack upward, except that a run
of the (right-associative, maximal-precedence) `**` may sit on top.
With only three precedence levels this means: at most one additive
operator at the bottom, at most one multiplicative operator above it,
and a run of `**` on top.  `mkBelow` builds such a stack and
`grammarCont` states what the reference grammar computes from the
corresponding partially-consumed input. -/

/-- Right-nested fold of a pending `**` run (top of the stack). -/
def powFold (pows : List AExp) (top : AExp) : AExp :=
  pows.foldl (fun t l => .bin .pow l t) top

/-- Apply a pending operator/left-operand pair, if any. -/
def applyOpt (p : Option (AOp × AExp)) (v : AExp) : AExp :=
  match p with
  | none => v
  | some (o, l) => .bin o l v

/-- The invariant stack shape (top-down): a `**` run, then at most one
multiplicative pair, then at most one additive pair. -/
def mkBelow (pows : List AExp) (mulp addp : Option (AOp × AExp)) : List (AOp × AExp) :=
  pows.map (fun e => (AOp.pow, e)) ++ mulp.toList ++ addp.toList

/-- What the reference grammar computes from a machine state `(top,
mkBelow pows mulp addp)` with remaining tokens `tl`. -/
def grammarCont (pows : List AExp) (mulp addp : Option (AOp × AExp))
    (top : AExp) (tl : List (AOp × AExp)) : AExp :=
  let c := parsePow top tl
  let m := parseMulLoop (applyOpt mulp (powFold pows c.1)) c.2
  (parseAddLoop (applyOpt addp m.1) m.2).1

theorem comparePrev_mulLevel_pow {m : AOp} (hm : m.isMulLevel = true) :
    comparePrev m .pow = true := by
  cases m <;> first | rfl | simp [AOp.isMulLevel] at hm

theorem comparePrev_mulLevel_mulLevel {m o : AOp} (hm : m.isMulLevel = true)
    (ho : o.isMulLevel = true) : comparePrev m o = true := by
  cases m <;> cases o <;> first | rfl | simp [AOp.isMulLevel] at hm ho

theorem comparePrev_mulLevel_addLevel {m o : AOp} (hm : m.isMulLevel = true)
    (ho : o.isAddLevel = true) : comparePrev m o = false := by
  cases m <;> cases o <;>
    first | rfl | simp [AOp.isMulLevel, AOp.isAddLevel] at hm ho

theorem comparePrev_addLevel_any {m : AOp} (o : AOp) (hm : m.isAddLevel = true) :
    comparePrev m o = true := by
  cases m <;> cases o <;> first | rfl | simp [AOp.isAddLevel] at hm

theorem mkBelow_cons (p : AExp) (ps : List AExp) (mulp addp : Option (AOp × AExp)) :
    mkBelow (p :: ps) mulp addp = (AOp.pow, p) :: mkBelow ps mulp addp := by
  simp [mkBelow]

theorem powFold_cons (p : AExp) (ps : List AExp) (top : AExp) :
    powFold (p :: ps) top = powFold ps (.bin .pow p top) := by
  simp [powFold]

/-- `**` never reduces the stack: against another `**` both operators are
right-associative and `11 > 11` fails; against anything else `11 <= prec`
fails. -/
theorem reduceWhile_pow (top : AExp) (below : List (AOp × AExp)) :
    reduceWhile .pow top below = (top, below) := by
  cases below with
  | nil => rfl
  | cons hd tl =>
    obtain ⟨o, l⟩ := hd
    have h : comparePrev .pow o = false := by cases o <;> rfl
    simp [reduceWhile, h]

/-- A multiplicative operator reduces the pending `**` run and any
pending multiplicative pair, then stops at an additive pair. -/
theorem reduceWhile_mul {m : AOp} (hm : m.isMulLevel = true)
    (top : AExp) (pows : List AExp) (mulp addp : Option (AOp × AExp))
    (hmul : ∀ p ∈ mulp, p.1.isMulLevel = true)
    (hadd : ∀ p ∈ addp, p.1.isAddLevel = true) :
    reduceWhile m top (mkBelow pows mulp addp)
      = (applyOpt mulp (powFold pows top), addp.toList) := by
  induction pows generalizing top with
  | nil =>
    cases mulp with
    | none =>
      cases addp with
      | none => simp [mkBelow, reduceWhile, applyOpt, powFold]
      | some q =>
        obtain ⟨ao, al⟩ := q
        have h2 : comparePrev m ao = false :=
          comparePrev_mulLevel_addLevel hm (hadd (ao, al) rfl)
        simp [mkBelow, reduceWhile, h2, applyOpt, powFold]
    | some p =>
      obtain ⟨mo, ml⟩ := p
      have h1 : comparePrev m mo = true :=
        comparePrev_mulLevel_mulLevel hm (hmul (mo, ml) rfl)
      cases addp with
      | none => simp [mkBelow, reduceWhile, h1, applyOpt, powFold]
      | some q =>
        obtain ⟨ao, al⟩ := q
        have h2 : comparePrev m ao = false :=
          comparePrev_mulLevel_addLevel hm (hadd (ao, al) rfl)
        simp [mkBelow, reduceWhile, h1, h2, applyOpt, powFold]
  | cons p ps ih =>
    have h1 : comparePrev m .pow = true := comparePrev_mulLevel_pow hm
    rw [mkBelow_cons, reduceWhile, h1, if_pos rfl, ih, powFold_cons]

/-- An additive operator reduces the whole stack. -/
theorem reduceWhile_add {m : AOp} (hm : m.isAddLevel = true)
    (top : AExp) (pows : List AExp) (mulp addp : Option (AOp × AExp)) :
    reduceWhile m top (mkBelow pows mulp addp)
      = (applyOpt addp (applyOpt mulp (powFold pows top)), []) := by
  induction pows generalizing top with
  | nil =>
    cases mulp with
    | none =>
      cases addp with
      | none => simp [mkBelow, reduceWhile, applyOpt, powFold]
      | some q =>
        obtain ⟨ao, al⟩ := q
        have h2 : comparePrev m ao = true := comparePrev_addLevel_any ao hm
        simp [mkBelow, reduceWhile, h2, applyOpt, powFold]
    | some p =>
      obtain ⟨mo, ml⟩ := p
      have h1 : comparePrev m mo = true := comparePrev_addLevel_any mo hm
      cases addp with
      | none => simp [mkBelow, reduceWhile, h1, applyOpt, powFold]
      | some q =>
        obtain ⟨ao, al⟩ := q
        have h2 : comparePrev m ao = true := comparePrev_addLevel_any ao hm
        simp [mkBelow, reduceWhile, h1, h2, applyOpt, powFold]
  | cons p ps ih =>
    have h1 : comparePrev m .pow = true := comparePrev_addLevel_any _ hm
    rw [mkBelow_cons, reduceWhile, h1, if_pos rfl, ih, powFold_cons]

/-- The final unwinding of an invariant-shaped stack right-nests the
`**` run and applies the pending pairs bottom-up. -/
theorem finalFold_mkBelow (top : AExp) (pows : List AExp)
    (mulp addp : Option (AOp × AExp)) :
    finalFold top (mkBelow pows mulp addp)
      = applyOpt addp (applyOpt mulp (powFold pows top)) := by
  induction pows generalizing top with
  | nil =>
    cases mulp with
    | none =>
      cases addp with
      | none => simp [mkBelow, finalFold, applyOpt, powFold]
      | some q =>
        obtain ⟨ao, al⟩ := q
        simp [mkBelow, finalFold, applyOpt, powFold]
    | some p =>
      obtain ⟨mo, ml⟩ := p
      cases addp with
      | none => simp [mkBelow, finalFold, applyOpt, powFold]
      | some q =>
        obtain ⟨ao, al⟩ := q
        simp [mkBelow, finalFold, applyOpt, powFold]
  | cons p ps ih =>
    rw [mkBelow_cons, powFold_cons]
    have : finalFold top ((AOp.pow, p) :: mkBelow ps mulp addp)
        = finalFold (.bin .pow p top) (mkBelow ps mulp addp) := by
      simp [finalFold]
    rw [this, ih]

/-- Exactly one of the three levels holds for each operator. -/
theorem AOp.level_trichotomy (op : AOp) :
    op = .pow ∨ op.isMulLevel = true ∨ op.isAddLevel = true := by
  cases op <;> simp [AOp.isMulLevel, AOp.isAddLevel]

theorem isMulLevel_ne_pow {op : AOp} (h : op.isMulLevel = true) : op ≠ .pow := by
  cases op <;> simp_all [AOp.isMulLevel]

theorem isAddLevel_ne_pow {op : AOp} (h : op.isAddLevel = true) : op ≠ .pow := by
  cases op <;> simp_all [AOp.isAddLevel]

theorem isAddLevel_not_mul {op : AOp} (h : op.isAddLevel = true) :
    op.isMulLevel = false := by
  cases op <;> simp_all [AOp.isAddLevel, AOp.isMulLevel]

/-! Unfolding equations for the reference-grammar functions, stated once
so that later proofs can rewrite one step at a time. -/

theorem parsePow_nil (a : AExp) : parsePow a [] = (a, []) := rfl

theorem parsePow_cons_pow (a b : AExp) (tl : List (AOp × AExp)) :
    parsePow a ((AOp.pow, b) :: tl)
      = (.bin .pow a (parsePow b tl).1, (parsePow b tl).2) := by
  simp [parsePow]

theorem parsePow_cons_notpow {op : AOp} (h : op ≠ .pow) (a b : AExp)
    (tl : List (AOp × AExp)) :
    parsePow a ((op, b) :: tl) = (a, (op, b) :: tl) := by
  simp [parsePow, h]

theorem parseMulLoop_nil (lhs : AExp) : parseMulLoop lhs [] = (lhs, []) := by
  rw [parseMulLoop]

theorem parseMulLoop_cons_mul {op : AOp} (h : op.isMulLevel = true)
    (lhs b : AExp) (tl : List (AOp × AExp)) :
    parseMulLoop lhs ((op, b) :: tl)
      = parseMulLoop (.bin op lhs (parsePow b tl).1) (parsePow b tl).2 := by
  rw [parseMulLoop]
  simp only [h, if_true]

theorem parseMulLoop_cons_notmul {op : AOp} (h : op.isMulLevel = false)
    (lhs b : AExp) (tl : List (AOp × AExp)) :
    parseMulLoop lhs ((op, b) :: tl) = (lhs, (op, b) :: tl) := by
  rw [parseMulLoop]
  simp only [h, Bool.false_eq_true, if_false]

theorem parseAddLoop_nil (lhs : AExp) : parseAddLoop lhs [] = (lhs, []) := by
  rw [parseAddLoop]

theorem parseAddLoop_cons_add {op : AOp} (h : op.isAddLevel = true)
    (lhs b : AExp) (tl : List (AOp × AExp)) :
    parseAddLoop lhs ((op, b) :: tl)
      = parseAddLoop (.bin op lhs (parseMul b tl).1) (parseMul b tl).2 := by
  rw [parseAddLoop]
  simp only [h, if_true]

theorem parseAddLoop_cons_notadd {op : AOp} (h : op.isAddLevel = false)
    (lhs b : AExp) (tl : List (AOp × AExp)) :
    parseAddLoop lhs ((op, b) :: tl) = (lhs, (op, b) :: tl) := by
  rw [parseAddLoop]
  simp only [h, Bool.false_eq_true, if_false]

/-! How the reference grammar steps across one leading token, for each
of the three precedence levels. -/

theorem grammarCont_pow (pows : List AExp) (mulp addp : Option (AOp × AExp))
    (top a : AExp) (tl : List (AOp × AExp)) :
    grammarCont pows mulp addp top ((AOp.pow, a) :: tl)
      = grammarCont (top :: pows) mulp addp a tl := by
  simp only [grammarCont, parsePow_cons_pow, powFold_cons]

theorem grammarCont_mul {op : AOp} (hm : op.isMulLevel = true)
    (pows : List AExp) (mulp addp : Option (AOp × AExp))
    (top a : AExp) (tl : List (AOp × AExp)) :
    grammarCont pows mulp addp top ((op, a) :: tl)
      = grammarCont [] (some (op, applyOpt mulp (powFold pows top))) addp a tl := by
  simp only [grammarCont, parsePow_cons_notpow (isMulLevel_ne_pow hm),
    parseMulLoop_cons_mul hm, powFold, List.foldl_nil, applyOpt]

theorem grammarCont_add {op : AOp} (ha : op.isAddLevel = true)
    (pows : List AExp) (mulp addp : Option (AOp × AExp))
    (top a : AExp) (tl : List (AOp × AExp)) :
    grammarCont pows mulp addp top ((op, a) :: tl)
      = grammarCont [] none
          (some (op, applyOpt addp (applyOpt mulp (powFold pows top)))) a tl := by
  simp only [grammarCont, parsePow_cons_notpow (isAddLevel_ne_pow ha),
    parseMulLoop_cons_notmul (isAddLevel_not_mul ha),
    parseAddLoop_cons_add ha, powFold, List.foldl_nil, applyOpt, parseMul]

/-- The simulation: from any invariant-shaped machine state, the token
loop of `gobbleBinaryExpression` computes exactly what the reference
grammar computes on the corresponding partially-consumed input. -/
theorem jsepLoop_grammarCont (tl : List (AOp × AExp)) :
    ∀ (top : AExp) (pows : List AExp) (mulp addp : Option (AOp × AExp)),
    (∀ p ∈ mulp, p.1.isMulLevel = true) →
    (∀ p ∈ addp, p.1.isAddLevel = true) →
    jsepLoop tl top (mkBelow pows mulp addp) = grammarCont pows mulp addp top tl := by
  induction tl with
  | nil =>
    intro top pows mulp addp hmul hadd
    rw [show jsepLoop [] top (mkBelow pows mulp addp)
          = finalFold top (mkBelow pows mulp addp) from rfl,
        finalFold_mkBelow]
    simp only [grammarCont, parsePow_nil, parseMulLoop_nil, parseAddLoop_nil]
  | cons hd tl ih =>
    obtain ⟨op, a⟩ := hd
    intro top pows mulp addp hmul hadd
    rcases AOp.level_trichotomy op with hpow | hmulL | haddL
    · -- `**`: no reduction, the run grows.
      subst hpow
      have lhs : jsepLoop ((AOp.pow, a) :: tl) top (mkBelow pows mulp addp)
          = jsepLoop tl a (mkBelow (top :: pows) mulp addp) := by
        simp only [jsepLoop, reduceWhile_pow, mkBelow_cons]
      rw [lhs, ih a (top :: pows) mulp addp hmul hadd, grammarCont_pow]
    · -- `* / %`: reduce the `**` run and the pending multiplicative pair.
      have lhs : jsepLoop ((op, a) :: tl) top (mkBelow pows mulp addp)
          = jsepLoop tl a
              (mkBelow [] (some (op, applyOpt mulp (powFold pows top))) addp) := by
        simp only [jsepLoop, reduceWhile_mul hmulL top pows mulp addp hmul hadd]
        simp [mkBelow]
      rw [lhs, ih a [] (some (op, applyOpt mulp (powFold pows top))) addp
            (by intro p hp; rw [Option.mem_def, Option.some_inj] at hp
                rw [← hp]; exact hmulL) hadd,
          grammarCont_mul hmulL]
    · -- `+ -`: reduce the whole stack.
      have lhs : jsepLoop ((op, a) :: tl) top (mkBelow pows mulp addp)
          = jsepLoop tl a
              (mkBelow [] none
                (some (op, applyOpt addp (applyOpt mulp (powFold pows top))))) := by
        simp only [jsepLoop, reduceWhile_add haddL top pows mulp addp]
        simp [mkBelow]
      rw [lhs, ih a [] none
            (some (op, applyOpt addp (applyOpt mulp (powFold pows top))))
            (by intro p hp; simp at hp)
            (by intro p hp; rw [Option.mem_def, Option.some_inj] at hp
                rw [← hp]; exact haddL),
          grammarCont_add haddL]

/-- `gobbleBinaryExpression` agrees with the reference grammar on every
flat operand/operator stream. -/
theorem jsepFlat_eq_refFlat (left : AExp) (rest : List (AOp × AExp)) :
    jsepFlat left rest = refFlat left rest := by
  cases rest with
  | nil =>
    simp [jsepFlat, refFlat, parseMul, parsePow_nil, parseMulLoop_nil,
      parseAddLoop_nil]
  | cons hd tl =>
    obtain ⟨op1, r⟩ := hd
    rcases AOp.level_trichotomy op1 with hpow | hmulL | haddL
    · subst hpow
      rw [show jsepFlat left ((AOp.pow, r) :: tl)
            = jsepLoop tl r [(AOp.pow, left)] from rfl,
          show [(AOp.pow, left)] = mkBelow [left] none none by simp [mkBelow],
          jsepLoop_grammarCont tl r [left] none none
            (by intro p hp; simp at hp) (by intro p hp; simp at hp)]
      simp only [grammarCont, refFlat, parseMul, parsePow_cons_pow, powFold,
        List.foldl_cons, List.foldl_nil, applyOpt]
    · rw [show jsepFlat left ((op1, r) :: tl)
            = jsepLoop tl r [(op1, left)] from rfl,
          show [(op1, left)] = mkBelow [] (some (op1, left)) none by simp [mkBelow],
          jsepLoop_grammarCont tl r [] (some (op1, left)) none
            (by intro p hp; rw [Option.mem_def, Option.some_inj] at hp
                rw [← hp]; exact hmulL)
            (by intro p hp; simp at hp)]
      simp only [grammarCont, refFlat, parseMul,
        parsePow_cons_notpow (isMulLevel_ne_pow hmulL),
        parseMulLoop_cons_mul hmulL, powFold, List.foldl_nil, applyOpt]
    · rw [show jsepFlat left ((op1, r) :: tl)
            = jsepLoop tl r [(op1, left)] from rfl,
          show [(op1, left)] = mkBelow [] none (some (op1, left)) by simp [mkBelow],
          jsepLoop_grammarCont tl r [] none (some (op1, left))
            (by intro p hp; simp at hp)
            (by intro p hp; rw [Option.mem_def, Option.some_inj] at hp
                rw [← hp]; exact haddL)]
      simp only [grammarCont, refFlat, parseMul,
        parsePow_cons_notpow (isAddLevel_ne_pow haddL),
        parseMulLoop_cons_notmul (isAddLevel_not_mul haddL),
        parseAddLoop_cons_add haddL, powFold, List.foldl_nil, applyOpt]

/-! ### Nested expressions (numeric literals, parentheses, operators)

A claim-C1 source expression is a run of atoms separated by the six
operators, where each atom is a numeric literal (`gobbleNumericLiteral`,
dist/index.js:864-908) or a parenthesized group (`gobbleGroup`,
dist/index.js:1057-1075, which parses its contents by the same
machinery).  `NExp.num` is a literal atom; `NExp.seq` is a run — a whole
expression, or a parenthesized group used as an atom. -/

inductive NExp where
  | num (v : ℚ)
  | seq (first : NExp) (rest : List (AOp × NExp))

/-- What `Jsep.parse` produces on a claim-C1 expression: atoms are
gobbled (literals become `Literal` nodes, groups are parsed recursively)
and the stream is assembled by `gobbleBinaryExpression`. -/
def NExp.jsepParse : NExp → AExp
  | .num v => .lit v
  | .seq first rest =>
    jsepFlat first.jsepParse
      (rest.attach.map fun p => (p.1.1, p.1.2.jsepParse))
decreasing_by
  · simp only [NExp.seq.sizeOf_spec]
    omega
  · obtain ⟨⟨o, e⟩, hmem⟩ := p
    have h1 := List.sizeOf_lt_of_mem hmem
    simp only [NExp.seq.sizeOf_spec, Prod.mk.sizeOf_spec] at *
    omega

/-- The same expression under the reference grammar. -/
def NExp.refParse : NExp → AExp
  | .num v => .lit v
  | .seq first rest =>
    refFlat first.refParse
      (rest.attach.map fun p => (p.1.1, p.1.2.refParse))
decreasing_by
  · simp only [NExp.seq.sizeOf_spec]
    omega
  · obtain ⟨⟨o, e⟩, hmem⟩ := p
    have h1 := List.sizeOf_lt_of_mem hmem
    simp only [NExp.seq.sizeOf_spec, Prod.mk.sizeOf_spec] at *
    omega

/-- jsep's parse of every claim-C1 expression equals the
standard-precedence reference parse. -/
theorem NExp.jsepParse_eq_refParse : ∀ e : NExp, e.jsepParse = e.refParse := by
  intro e
  induction e using NExp.jsepParse.induct with
  | case1 v => rw [NExp.jsepParse, NExp.refParse]
  | case2 first rest ih1 ih2 =>
    rw [NExp.jsepParse, NExp.refParse, jsepFlat_eq_refFlat, ih1]
    congr 1
    apply List.map_congr_left
    intro p _
    rw [ih2 p]

/-! ### The safe evaluator on arithmetic ASTs (claims C1)

`SafeEval.evalAst` (dist/index.js:1387-1413) dispatches `Literal` nodes
to `evalLiteral` and `BinaryExpression` nodes to `evalBinaryExpression`
(dist/index.js:1414-1441).  The binary-operator table there has entries
for `+ - * / %` (and the comparison/bitwise/logical operators) but NO
entry for `'**'`: on a `**` node, `result[ast.operator]` is `undefined`
and the call `undefined(...)` raises a `TypeError` — after the left
operand has been evaluated (JavaScript evaluates the callee and the
arguments before discovering the callee is not callable), and without
ever touching the right operand.

Numbers are idealized as exact rationals: `/` is exact division (the
source divides doubles; division by zero, which yields `Infinity`/`NaN`
in JavaScript, has no counterpart here and no claim exercises it), `%`
is `a - b * trunc(a / b)` (the `fmod` semantics of JavaScript `%`). -/

def jsDiv (a b : ℚ) : ℚ := a / b

/-- Truncation toward zero, as JavaScript `%` requires. -/
def ratTrunc (q : ℚ) : ℤ := if 0 ≤ q then ⌊q⌋ else ⌈q⌉

def jsMod (a b : ℚ) : ℚ := a - b * (ratTrunc (a / b) : ℚ)

/-- The one failure the arithmetic fragment of `SafeEval` can raise:
calling the missing `'**'` table entry. -/
inductive ArithErr where
  | typeErrorNotAFunction
deriving DecidableEq, Repr

/-- The arithmetic rows of the `evalBinaryExpression` operator table
(dist/index.js:1434-1438); `'**'` has no row. -/
def arithOpTable : AOp → Option (ℚ → ℚ → ℚ)
  | .add => some (· + ·)
  | .sub => some (· - ·)
  | .mul => some (· * ·)
  | .div => some jsDiv
  | .mod => some jsMod
  | .pow => none

/-- `SafeEval.evalAst` restricted to `Literal` and `BinaryExpression`
nodes (dist/index.js:1387-1441): evaluate the left operand, look up the
operator's table row, fail with a `TypeError` when there is none (the
`'**'` case), otherwise force the right operand and apply the row. -/
def evalAstArith : AExp → Except ArithErr ℚ
  | .lit v => .ok v
  | .bin op l r =>
    match evalAstArith l with
    | .error e => .error e
    | .ok a =>
      match arithOpTable op with
      | none => .error .typeErrorNotAFunction
      | some f =>
        match evalAstArith r with
        | .error e => .error e
        | .ok b => .ok (f a b)

instance {e a : Type} [DecidableEq e] [DecidableEq a] :
    DecidableEq (Except e a) := fun x y =>
  match x, y with
  | .ok u, .ok v =>
    if h : u = v then isTrue (by rw [h]) else isFalse (by simp [h])
  | .error u, .error v =>
    if h : u = v then isTrue (by rw [h]) else isFalse (by simp [h])
  | .ok _, .error _ => isFalse (by simp)
  | .error _, .ok _ => isFalse (by simp)

/-- Since jsep's parse equals the reference parse on every claim-C1
expression, safe evaluation agrees as well, whatever it does. -/
theorem evalAstArith_jsepParse_eq (e : NExp) :
    evalAstArith e.jsepParse = evalAstArith e.refParse := by
  rw [NExp.jsepParse_eq_refParse]

/-- C1 (amended).  For every expression built from numeric literals,
parentheses and the binary operators `+ - * / % **`, jsep's parser
produces exactly the AST of standard operator precedence and
associativity (`**` right-associative, the rest left-associative), and
safe evaluation of the parse therefore agrees with safe evaluation of
the standard parse; in particular `2 + 3 * 4` evaluates to `14`, and
`2 ** 3 ** 2` parses right-associatively as `2 ** (3 ** 2)` — but
evaluating any `**` node with the safe evaluator raises a `TypeError`
(the `evalBinaryExpression` table has no `'**'` row), so it does not
evaluate to a value at all. -/
theorem claim_C1 :
    (∀ e : NExp, e.jsepParse = e.refParse)
    ∧ (∀ e : NExp, evalAstArith e.jsepParse = evalAstArith e.refParse)
    ∧ evalAstArith (jsepFlat (.lit 2) [(.add, .lit 3), (.mul, .lit 4)]) = .ok 14
    ∧ jsepFlat (.lit 2) [(.pow, .lit 3), (.pow, .lit 2)]
        = .bin .pow (.lit 2) (.bin .pow (.lit 3) (.lit 2))
    ∧ evalAstArith (jsepFlat (.lit 2) [(.pow, .lit 3), (.pow, .lit 2)])
        = .error .typeErrorNotAFunction :=
  ⟨NExp.jsepParse_eq_refParse, evalAstArith_jsepParse_eq,
    by norm_num [evalAstArith, jsepFlat, jsepLoop, reduceWhile, finalFold,
      arithOpTable, comparePrev, AOp.prec, AOp.rightA],
    by decide, by decide⟩

/-- C1 (counterexample to the claim as stated).  `2 ** 3 ** 2` does not
evaluate to `512` (nor to any value) under the safe evaluator: the
`evalBinaryExpression` operator table (dist/index.js:1415-1439) has no
`'**'` row, so evaluation raises a `TypeError`. -/
theorem claim_C1_counterexample :
    evalAstArith (jsepFlat (.lit 2) [(.pow, .lit 3), (.pow, .lit 2)])
        = .error .typeErrorNotAFunction
    ∧ ¬(evalAstArith (jsepFlat (.lit 2) [(.pow, .lit 3), (.pow, .lit 2)])
        = .ok 512) := by
  exact ⟨by decide, by decide⟩

/-! ## Part B: JSON values and the SafeEval fragment (claims C2, C10)

JavaScript values, as far as the library's claims need them.  `undef`
is JavaScript `undefined` (distinct from JSON `null`); numbers are
idealized as exact rationals (see the file header); objects are
association lists of own enumerable properties in insertion order.  The
prototype chain is not modelled: every lookup the library performs is
either an `Object.hasOwn` check or is guarded by one, except that
reading an absent, non-blocked property yields `undefined` here where
JavaScript would consult the prototype — no claim reads such a
property. -/

inductive JVal where
  | null
  | undef
  | bool (b : Bool)
  | num (q : ℚ)
  | str (s : String)
  | arr (elems : List JVal)
  | obj (fields : List (String × JVal))

/-- First-match association lookup: JavaScript object property access
(object keys are unique; on lists with duplicate keys the first wins). -/
def lookupField (k : String) : List (String × JVal) → Option JVal
  | [] => none
  | (k', v) :: tl => if k' = k then some v else lookupField k tl

/-- `Object.hasOwn(fields, k)` on a modelled object. -/
def hasOwnFields (fields : List (String × JVal)) (k : String) : Bool :=
  (lookupField k fields).isSome

/-- Value of a digit string (leading zeros allowed). -/
def digitsToNat (cs : List Char) : Nat :=
  cs.foldl (fun a c => a * 10 + (c.toNat - 48)) 0

/-- A string that is a canonical array index ("0", "17", but neither
"01" nor ""): exactly the strings for which `Object.hasOwn(array, s)`
can be true. -/
def strToIndex (s : String) : Option Nat :=
  match s.toList with
  | [] => none
  | c :: cs =>
    if (c :: cs).all Char.isDigit ∧ (c ≠ '0' ∨ cs = []) then
      some (digitsToNat (c :: cs))
    else none

/-- `Object.hasOwn(v, prop)` for each shape of value: objects own their
fields; arrays own their canonical indices and `length`; strings own
their indices and `length`; primitives own nothing. -/
def jvHasOwn (v : JVal) (prop : String) : Bool :=
  match v with
  | .obj fields => hasOwnFields fields prop
  | .arr elems =>
    prop = "length" ||
      (match strToIndex prop with
       | some i => i < elems.length
       | none => false)
  | .str s =>
    prop = "length" ||
      (match strToIndex prop with
       | some i => i < s.length
       | none => false)
  | _ => false

/-- `v[prop]` restricted to own properties (see the note on prototypes
above): absent properties read as `undefined`. -/
def jvGet (v : JVal) (prop : String) : JVal :=
  match v with
  | .obj fields => (lookupField prop fields).getD .undef
  | .arr elems =>
    if prop = "length" then .num elems.length
    else
      match strToIndex prop with
      | some i => (elems.get? i).getD .undef
      | none => .undef
  | .str s =>
    if prop = "length" then .num s.length
    else
      match strToIndex prop with
      | some i => (s.toList.get? i).elim .undef (fun c => .str (String.mk [c]))
      | none => .undef
  | _ => JVal.undef

/-- `String(value)` / template-literal display of a value, as used in
error messages and array joins.  Numbers are displayed in the idealized
rational form (integers display as JavaScript does; non-integers would
display as decimals in JavaScript — no claim displays one).  Array
elements display as in `Array.prototype.join`: `null`/`undefined`
become the empty string. -/
def jsDisplay : JVal → String
  | .null => "null"
  | .undef => "undefined"
  | .bool b => cond b "true" "false"
  | .num q => if q.den = 1 then toString q.num else toString q
  | .str s => s
  | .obj _ => "[object Object]"
  | .arr elems =>
    String.intercalate ","
      (elems.attach.map fun x =>
        match x with
        | ⟨.null, _⟩ => ""
        | ⟨.undef, _⟩ => ""
        | ⟨v, _hv⟩ => jsDisplay v)
decreasing_by
  have h1 := List.sizeOf_lt_of_mem _hv
  simp only [JVal.arr.sizeOf_spec] at *
  omega

/-! ### The SafeEval fragment

`SafeEval.evalAst` (dist/index.js:1387-1413) dispatches on node type.
The fragment embedded here is what claims C2 and C10 exercise:
`Literal`, `Identifier`, `MemberExpression` and `AssignmentExpression`
nodes.  (Call, unary, conditional, array, compound and logical nodes
are not embedded; no claim quantifies over them.  A computed member
`object[expr]` stringifies its evaluated property expression —
`String(...)`, dist/index.js:1473-1479 — and then reaches exactly the
same code as the dot form, so the embedding takes the property as the
already-stringified name.)

Because `evalAssignmentExpression` mutates the binding map
(`subs[id] = value`, dist/index.js:1521), the evaluator threads the
map explicitly: it takes the current map and returns the (possibly
updated) map with the value. -/

inductive SEAst where
  | lit (v : JVal)
  | ident (name : String)
  | member (object : SEAst) (prop : String)
  | assignExpr (left : SEAst) (rhs : SEAst)

inductive EvalErr where
  | referenceError (msg : String)
  | typeError (msg : String)
  | syntaxError (msg : String)
deriving DecidableEq, Repr

/-- `BLOCKED_PROTO_PROPERTIES` (dist/index.js:1381). -/
def BLOCKED_PROTO_PROPERTIES : List String :=
  ["constructor", "__proto__", "__defineGetter__", "__defineSetter__"]

/-- The binding map (`subs`): a prototypeless JavaScript object. -/
abbrev Subs := List (String × JVal)

/-- `subs[id] = value`: update in place when the key exists (keeping
its position), append otherwise. -/
def setKey (l : Subs) (k : String) (v : JVal) : Subs :=
  match l with
  | [] => [(k, v)]
  | (k', v') :: tl => if k' = k then (k, v) :: tl else (k', v') :: setKey tl k v

/-- The body of `SafeEval.evalMemberExpression` after the object has
been evaluated (dist/index.js:1480-1491): fail on `null`/`undefined`,
fail on a blocked property the object does not own, otherwise read the
property.  (The function-`bind` step at 1488-1490 has no counterpart:
`JVal` has no function values.) -/
def evalMemberOn (obj : JVal) (prop : String) : Except EvalErr JVal :=
  match obj with
  | .null => .error (.typeError
      ("Cannot read properties of null (reading '" ++ prop ++ "')"))
  | .undef => .error (.typeError
      ("Cannot read properties of undefined (reading '" ++ prop ++ "')"))
  | v =>
    if ¬(jvHasOwn v prop) ∧ prop ∈ BLOCKED_PROTO_PROPERTIES then
      .error (.typeError
        ("Cannot read properties of " ++ jsDisplay v ++ " (reading '" ++ prop ++ "')"))
    else
      .ok (jvGet v prop)

/-- `SafeEval.evalAst` on the embedded fragment, threading the binding
map.  `Identifier`: own-property check then read, else a
`ReferenceError` (dist/index.js:1463-1468).  `AssignmentExpression`:
the left side must be a bare identifier (else a `SyntaxError`, checked
before the right side is evaluated); the value is stored into the map
and returned (dist/index.js:1515-1523). -/
def evalAstS : SEAst → Subs → Except EvalErr (JVal × Subs)
  | .lit v, subs => .ok (v, subs)
  | .ident name, subs =>
    match lookupField name subs with
    | some v => .ok (v, subs)
    | none => .error (.referenceError (name ++ " is not defined"))
  | .member object prop, subs =>
    match evalAstS object subs with
    | .error e => .error e
    | .ok (v, subs') =>
      match evalMemberOn v prop with
      | .error e => .error e
      | .ok r => .ok (r, subs')
  | .assignExpr left rhs, subs =>
    match left with
    | .ident name =>
      match evalAstS rhs subs with
      | .error e => .error e
      | .ok (v, subs') => .ok (v, setKey subs' name v)
    | _ => .error (.syntaxError "Invalid left-hand side in assignment")

/-- `Object.assign(Object.create(null), context)`
(dist/index.js:1545): a fresh map holding the caller's own properties
(later duplicates overwrite earlier ones, as assignment does). -/
def copyOwn (ctx : Subs) : Subs :=
  ctx.foldl (fun acc p => setKey acc p.1 p.2) []

/-- `SafeScript.runInNewContext` (dist/index.js:1543-1547): evaluate
against the fresh copy; the mutated copy is discarded and only the
value is returned. -/
def runInNewContext (ast : SEAst) (context : Subs) : Except EvalErr JVal :=
  (evalAstS ast (copyOwn context)).map Prod.fst

theorem hasOwnFields_eq_true_of_lookup {fields : List (String × JVal)}
    {p : String} {v : JVal} (h : lookupField p fields = some v) :
    hasOwnFields fields p = true := by
  simp [hasOwnFields, h]

/-- C2.  For every (modelled) object value and every property name in
the denylist `{constructor, __proto__, __defineGetter__,
__defineSetter__}`, evaluating a member access for that property with
the safe evaluator raises a `TypeError` whenever the object does not
own the property; when the object does own it, the access succeeds and
returns the owned value. -/
theorem claim_C2 (fields : List (String × JVal)) (p : String)
    (hp : p ∈ BLOCKED_PROTO_PROPERTIES) :
    (hasOwnFields fields p = false →
      evalAstS (.member (.ident "o") p) [("o", .obj fields)]
        = .error (.typeError
            ("Cannot read properties of [object Object] (reading '" ++ p ++ "')")))
    ∧ (∀ v, lookupField p fields = some v →
      evalAstS (.member (.ident "o") p) [("o", .obj fields)]
        = .ok (v, [("o", .obj fields)])) := by
  constructor
  · intro hown
    simp [evalAstS, lookupField, evalMemberOn, jvHasOwn, hown, hp, jsDisplay]
  · intro v hv
    have hown := hasOwnFields_eq_true_of_lookup hv
    simp [evalAstS, lookupField, evalMemberOn, jvHasOwn, hown, jvGet, hv]

/-- Witness for C2 at concrete inputs: reading `constructor` off an
empty object fails with the type error; reading `__proto__` off an
object that owns it returns the owned value. -/
theorem claim_C2_witness :
    evalAstS (.member (.ident "o") "constructor") [("o", .obj [])]
      = .error (.typeError
          "Cannot read properties of [object Object] (reading 'constructor')")
    ∧ evalAstS (.member (.ident "o") "__proto__")
        [("o", .obj [("__proto__", .num 7)])]
      = .ok (.num 7, [("o", .obj [("__proto__", .num 7)])]) := by
  constructor
  · have h := (claim_C2 [] "constructor" (by simp [BLOCKED_PROTO_PROPERTIES])).1
      (by rfl)
    simpa using h
  · exact (claim_C2 [("__proto__", .num 7)] "__proto__"
      (by simp [BLOCKED_PROTO_PROPERTIES])).2 (.num 7) (by simp [lookupField])

theorem setKey_of_not_mem {l : Subs} {k : String}
    (h : ∀ p ∈ l, p.1 ≠ k) (v : JVal) : setKey l k v = l ++ [(k, v)] := by
  induction l with
  | nil => rfl
  | cons hd tl ih =>
    obtain ⟨k', v'⟩ := hd
    have hk : k' ≠ k := h (k', v') (by simp)
    simp only [setKey, if_neg hk, List.cons_append, List.cons.injEq, true_and]
    exact ih fun p hp => h p (by simp [hp])

theorem copyOwn_aux (ctx : Subs) :
    ∀ acc : Subs, (ctx.map Prod.fst).Nodup →
    (∀ k ∈ ctx.map Prod.fst, ∀ p ∈ acc, p.1 ≠ k) →
    ctx.foldl (fun acc p => setKey acc p.1 p.2) acc = acc ++ ctx := by
  induction ctx with
  | nil => intro acc _ _; simp
  | cons hd tl ih =>
    intro acc hnodup hdisj
    obtain ⟨k, v⟩ := hd
    rw [List.foldl_cons]
    rw [show setKey acc k v = acc ++ [(k, v)] from
        setKey_of_not_mem (fun p hp => hdisj k (by simp) p hp) v]
    rw [ih (acc ++ [(k, v)]) (by simpa using hnodup.of_cons)]
    · simp
    · intro k' hk' p hp
      rcases List.mem_append.1 hp with hpa | hpb
      · exact hdisj k' (by simp [hk']) p hpa
      · have : p = (k, v) := by simpa using hpb
        rw [this]
        simp only [ne_eq]
        intro hkk
        rw [List.map_cons, List.nodup_cons] at hnodup
        exact hnodup.1 (by rw [hkk]; exact hk')

/-- C10.  `SafeScript.runInNewContext` evaluates against a fresh
prototypeless copy of the caller's context and returns only the value:
(1) the call is exactly evaluation over `copyOwn context`, with the
mutated copy discarded; (2) an assignment writes the evaluator's
threaded map — the copy — not the caller's object; (3) the copy holds
exactly the caller's own bindings.  Since the caller's context is never
handed to the evaluator, every binding of the caller's context is
unchanged by the call. -/
theorem claim_C10 :
    (∀ (ast : SEAst) (ctx : Subs),
      runInNewContext ast ctx = (evalAstS ast (copyOwn ctx)).map Prod.fst)
    ∧ (∀ (name : String) (rhs : SEAst) (subs : Subs),
      evalAstS (.assignExpr (.ident name) rhs) subs
        = (evalAstS rhs subs).map (fun p => (p.1, setKey p.2 name p.1)))
    ∧ (∀ ctx : Subs, (ctx.map Prod.fst).Nodup → copyOwn ctx = ctx) := by
  refine ⟨fun ast ctx => rfl, fun name rhs subs => ?_, fun ctx h => ?_⟩
  · cases hr : evalAstS rhs subs with
    | error e => simp [evalAstS, hr, Except.map]
    | ok p => obtain ⟨v, s'⟩ := p; simp [evalAstS, hr, Except.map]
  · rw [show copyOwn ctx = ctx.foldl (fun acc p => setKey acc p.1 p.2) [] from rfl,
        copyOwn_aux ctx [] h (by intro k _ p hp; simp at hp)]
    simp

/-- Witness for C10 at a concrete input: assigning `x = 5` in a context
with `x = 1` yields `5`, and the copy of that context is the context
itself. -/
theorem claim_C10_witness :
    evalAstS (.assignExpr (.ident "x") (.lit (.num 5))) [("x", .num 1)]
      = .ok (.num 5, [("x", .num 5)])
    ∧ copyOwn [("x", .num 1)] = [("x", .num 1)] := by
  constructor
  · rw [claim_C10.2.1 "x" (.lit (.num 5)) [("x", .num 1)]]
    simp [evalAstS, setKey, Except.map]
  · exact claim_C10.2.2 [("x", .num 1)] (by simp)

/-! ## Part C: the JSONPath query engine (claims C4, C5, C8)

`JSONPath.prototype._trace` (dist/index.js:1848-2073) recursively
follows a list of normalized path segments.  Segments are the strings
produced by `toPathArray`, except that `_slice` and `(expr)` evaluation
re-enter `_trace` with non-string (numeric) segments; `SegTok` carries
both shapes.

Modelling decisions, each marked at the branch it concerns:

* The parent-selector `^` (dist/index.js:1910-1917 and the post-pass at
  2052-2071) communicates through the mutable `this._hasParentSelector`
  and is not embedded; no claim mentions `^`, and every theorem below
  quantifies only over segment lists of the embedded shapes.
* Filter/script evaluation (`_eval`, dist/index.js:2111-2150, and its
  `SafeScript` compilation pipeline and process-wide cache) is
  abstracted as an evaluator parameter `ev`; the nested-filter special
  case (dist/index.js:1941-1952) is not embedded.  Claim C8 concerns
  only the evaluation-disabled paths, which throw before any of that
  runs; claim C4's theorem constrains the trace's output, not the
  evaluator.
* `_slice` on a non-array returns `undefined`, which `addRet` pushes
  into the result list and `evaluate`'s `.filter(ea => ea && ...)`
  later removes; the embedding contributes nothing in that case, so
  the embedded trace output is the source's post-filter result list.
* A numeric segment the current value does not own falls through the
  string-only branches (`loc.indexOf` on a number would throw in
  JavaScript); the embedding yields no results there. No claim reaches
  this.
* Result callbacks (`_handleCallback`) only notify; they do not change
  the returned results and are not embedded.
-/

/-- A path segment as `_trace` receives it: a string from
`toPathArray`, or a number produced by `_slice` / script evaluation. -/
inductive SegTok where
  | s (val : String)
  | n (val : Nat)
deriving DecidableEq, Repr

/-- The string form of a segment, as used for path components and
parent-property names. -/
def SegTok.str : SegTok → String
  | .s v => v
  | .n v => toString v

/-- `Object.hasOwn(val, loc)`: a numeric key is coerced to its decimal
string, which on arrays and strings is exactly the index test (put
directly) and on objects a decimal-string field lookup. -/
def hasOwnTok (val : JVal) : SegTok → Bool
  | .s k => jvHasOwn val k
  | .n i =>
    match val with
    | .arr elems => i < elems.length
    | .str str' => i < str'.length
    | .obj fields => hasOwnFields fields (toString i)
    | _ => false

/-- `val[loc]`. -/
def jvGetTok (val : JVal) : SegTok → JVal
  | .s k => jvGet val k
  | .n i =>
    match val with
    | .arr elems => (elems.get? i).getD .undef
    | .str str' => (str'.toList.get? i).elim .undef (fun c => .str (String.mk [c]))
    | .obj fields => (lookupField (toString i) fields).getD .undef
    | _ => JVal.undef

/-- JavaScript truthiness of a modelled value (`NaN`, absent from the
idealized numbers, is the one falsy value not covered). -/
def jvTruthy : JVal → Bool
  | .null => false
  | .undef => false
  | .bool b => b
  | .num q => ¬(q = 0)
  | .str s => ¬(s = "")
  | .arr _ => true
  | .obj _ => true

/-- `typeof v === 'object'` — true for objects, arrays and `null`. -/
def jvTypeofObject : JVal → Bool
  | .obj _ => true
  | .arr _ => true
  | .null => true
  | _ => false

/-- `_walk` (dist/index.js:2074-2085): array indices in order, or own
object keys in order; nothing for other values. -/
def walkKeys : JVal → List SegTok
  | .arr elems => (List.range elems.length).map .n
  | .obj fields => fields.map (fun p => .s p.1)
  | _ => []

/-- One result tuple of `_trace` (the `retObj` shape,
dist/index.js:1853-1859).  `isParentSelector` entries do not arise
(no `^`); path components are kept in string form. -/
structure TraceResult where
  path : List String
  value : JVal
  parent : JVal
  parentProperty : Option String
  hasArrExpr : Bool

/-- Failures `_trace` can raise, plus fuel exhaustion (which has no
source counterpart; every theorem supplies sufficient fuel). -/
inductive TraceErr where
  | evalPrevented (msg : String)
  | typeErr (msg : String)
  | evalFailed (msg : String)
  | fuelOut
deriving DecidableEq, Repr

/-- The abstract filter/script evaluator standing for `_eval`
(dist/index.js:2111-2150): code text and the current value
(`@` / `_$_v`) to a value or a failure.  The sandbox's
`_$_parent` / `_$_property` / `_$_root` / `_$_path` bindings and the
compiled-script cache are inside this abstraction. -/
def JPEvaluator : Type := String → JVal → Except String JVal

/-- Engine configuration (the fields of claims C4/C5/C8):
`wrap`/`flatten` as in the options object, `evalEnabled = false` is
`eval: false`, `true` the default `'safe'`.  `resultType` is fixed to
`'value'` and `ignoreEvalErrors` to its default `false`. -/
structure JPConfig where
  wrap : Bool
  flatten : Bool
  evalEnabled : Bool

/-- digits-only test (`\\d*`). -/
def digitsOnlyL (cs : List Char) : Bool := cs.all Char.isDigit

/-- `-?\\d*`. -/
def signedDigitsL (cs : List Char) : Bool :=
  match cs with
  | '-' :: rest => digitsOnlyL rest
  | _ => digitsOnlyL cs

/-- The slice-detection regex `/^(-?\\d*):(-?\\d*):?(\\d*)$/u`
(dist/index.js:1931), over the segment's characters. -/
def sliceTest (s : String) : Bool :=
  match s.toList.splitOn ':' with
  | [a, b] => signedDigitsL a && signedDigitsL b
  | [a, b, c] => signedDigitsL a && signedDigitsL b && digitsOnlyL c
  | _ => false

/-- `Number.parseInt` on the strings the slice regex admits: `""` and
`"-"` give `NaN` (`none`); leading zeros are fine. -/
def parseIntOpt : List Char → Option Int
  | [] => none
  | '-' :: rest =>
    if rest ≠ [] ∧ digitsOnlyL rest then some (-(digitsToNat rest : Int)) else none
  | cs =>
    if digitsOnlyL cs then some (digitsToNat cs : Int) else none

/-- `part && Number.parseInt(part) || dflt` (dist/index.js:2092-2094):
an empty part, a `NaN` parse, and a zero value all fall back to the
default — including `end = "0"`, which therefore means "array length",
not "index 0". -/
def sliceComponent (s : List Char) (dflt : Int) : Int :=
  if s = [] then dflt
  else
    match parseIntOpt s with
    | none => dflt
    | some n => if n = 0 then dflt else n

/-- The index arithmetic of `_slice` (dist/index.js:2090-2096) for an
array of length `len`: defaults, negative-index wrap, clamp. -/
def sliceBounds (loc : String) (len : Int) : Int × Int × Int :=
  let parts := loc.toList.splitOn ':'
  let step := sliceComponent (parts.getD 2 []) 1
  let start0 := sliceComponent (parts.getD 0 []) 0
  let end0 := sliceComponent (parts.getD 1 []) len
  let start1 := if start0 < 0 then max 0 (start0 + len) else min len start0
  let end1 := if end0 < 0 then max 0 (end0 + len) else min len end0
  (start1, end1, step)

/-- The `@type()` value tests (dist/index.js:1969-2023).  `function`
never matches (`JVal` has no functions); `nonFinite` never matches
(idealized numbers are finite); `other` raises the default
`otherTypeCallback` error (dist/index.js:1714-1716; a caller-supplied
callback is not modelled); an unknown name raises a `TypeError`. -/
def typeTestMatches (valueType : String) (val : JVal) : Except TraceErr Bool :=
  match valueType with
  | "scalar" =>
    .ok (match val with
         | .arr _ => false
         | .obj _ => false
         | _ => true)
  | "boolean" => .ok (match val with | .bool _ => true | _ => false)
  | "string" => .ok (match val with | .str _ => true | _ => false)
  | "undefined" => .ok (match val with | .undef => true | _ => false)
  | "function" => .ok false
  | "integer" => .ok (match val with | .num q => q.den = 1 | _ => false)
  | "number" => .ok (match val with | .num _ => true | _ => false)
  | "nonFinite" => .ok false
  | "object" => .ok (jvTypeofObject val && !(val matches .null))
  | "array" => .ok (match val with | .arr _ => true | _ => false)
  | "other" => .error (.typeErr
      "You must supply an otherTypeCallback callback option with the @other() operator.")
  | "null" => .ok (match val with | .null => true | _ => false)
  | _ => .error (.typeErr ("Unknown value type " ++ valueType))

/-- Sequential composition of per-key traces, short-circuiting on the
first raised error (as a thrown exception aborts the JavaScript loop). -/
def walkSeq (tr : SegTok → Except TraceErr (List TraceResult)) :
    List SegTok → Except TraceErr (List TraceResult)
  | [] => .ok []
  | k :: tl => do
    let r ← tr k
    let rest ← walkSeq tr tl
    .ok (r ++ rest)

/-- The `for (let i = start; i < end; i += step)` loop of `_slice`
(dist/index.js:2098-2108); the iteration budget `fuel` is at least
`end - start`, which the wrapper below supplies. -/
def sliceLoop (tr : SegTok → Except TraceErr (List TraceResult))
    (endI step : Int) : Nat → Int → Except TraceErr (List TraceResult)
  | 0, _ => .ok []
  | fuel + 1, i =>
    if i < endI then do
      let r ← tr (.n i.toNat)
      let rest ← sliceLoop tr endI step fuel (i + step)
      .ok (r ++ rest)
    else .ok []

def SegTok.isStr : SegTok → Bool
  | .s _ => true
  | .n _ => false

/-- Script-evaluation results re-enter `_trace` as segment tokens
(`unshift(this._eval(...), x)`, dist/index.js:1968): nonnegative
integers act as numeric tokens, everything else is coerced to its
property-key string. -/
def keyOfJVal : JVal → SegTok
  | .num q => if q.den = 1 ∧ 0 ≤ q.num then .n q.num.toNat else .s (jsDisplay (.num q))
  | .str s => .s s
  | v => .s (jsDisplay v)

/-- Character-level prefix test (`loc.indexOf('?(') === 0`,
`loc[0] === '('`, and similar leading-character dispatches). -/
def listIsPrefix : List Char → List Char → Bool
  | [], _ => true
  | _ :: _, [] => false
  | c :: cs, d :: ds => c = d && listIsPrefix cs ds

def strStartsWith (s pre : String) : Bool := listIsPrefix pre.toList s.toList

/-- One step of `JSONPath.prototype._trace` (dist/index.js:1848-2073)
on a nonempty segment list, with the modelling decisions listed in the
Part C header.  `self` is the recursive trace at the remaining fuel.
The branch order is the source's: literal-priority / non-string
property; `*`; `..`; `~`; `$`; slice; `?(` filter; `(` script;
`@type()`; backtick; comma list; plain own property.  An exhausted
branch chain returns the (empty) accumulated results. -/
def jtraceStep (cfg : JPConfig) (ev : JPEvaluator)
    (self : List SegTok → JVal → List String → JVal → Option String →
      Bool → Bool → Except TraceErr (List TraceResult))
    (loc : SegTok) (x : List SegTok) (val : JVal) (path : List String)
    (parent : JVal) (parentPropName : Option String)
    (hasArrExpr literalPriority : Bool) :
    Except TraceErr (List TraceResult) :=
  if (!loc.isStr || literalPriority) && jvTruthy val && hasOwnTok val loc then
    -- simple case: directly follow the property (dist/index.js:1886-1888)
    self x (jvGetTok val loc) (path ++ [loc.str]) val (some loc.str)
      hasArrExpr false
  else
    match loc with
    | .n _ => .ok []
    | .s ls =>
      if ls = "*" then
        -- all child properties (dist/index.js:1890-1894)
        walkSeq (fun m =>
            self x (jvGetTok val m) (path ++ [m.str]) val (some m.str)
              true true)
          (walkKeys val)
      else if ls = ".." then
        -- recursive descent (dist/index.js:1895-1907)
        (do
          let first ← self x val path parent parentPropName hasArrExpr false
          let rest ← walkSeq (fun m =>
              if jvTypeofObject (jvGetTok val m) then
                self (SegTok.s ls :: x) (jvGetTok val m) (path ++ [m.str])
                  val (some m.str) true false
              else .ok [])
            (walkKeys val)
          .ok (first ++ rest))
      else if ls = "~" then
        -- property name (dist/index.js:1918-1927); a numeric parent
        -- property appears here in string form (see Part C header)
        .ok [{ path := path ++ ["~"],
               value := (match parentPropName with
                         | some s => .str s
                         | none => .null),
               parent := parent, parentProperty := none,
               hasArrExpr := false }]
      else if ls = "$" then
        -- root re-anchor (dist/index.js:1928-1930)
        self x val path .null none hasArrExpr false
      else if sliceTest ls then
        -- [start:end:step] (dist/index.js:1931-1933, 2086-2110)
        match val with
        | .arr elems =>
          let b := sliceBounds ls elems.length
          sliceLoop (fun tok =>
              self (tok :: x) val path parent parentPropName true false)
            b.2.1 b.2.2 ((b.2.1 - b.1).toNat + 1) b.1
        | _ => .ok []
      else if strStartsWith ls "?(" then
        -- [?(expr)] filtering (dist/index.js:1934-1959)
        if cfg.evalEnabled = false then
          .error (.evalPrevented "Eval [?(expr)] prevented in JSONPath expression.")
        else
          let safeLoc := if ls.endsWith ")" then (ls.drop 2).dropRight 1 else ls
          walkSeq (fun m =>
              match ev safeLoc (jvGetTok val m) with
              | .error msg =>
                .error (.evalFailed ("jsonPath: " ++ msg ++ ": " ++ safeLoc))
              | .ok fv =>
                if jvTruthy fv then
                  self x (jvGetTok val m) (path ++ [m.str]) val (some m.str)
                    true false
                else .ok [])
            (walkKeys val)
      else if strStartsWith ls "(" then
        -- [(expr)] dynamic property (dist/index.js:1960-1968)
        if cfg.evalEnabled = false then
          .error (.evalPrevented "Eval [(expr)] prevented in JSONPath expression.")
        else
          match ev ls val with
          | .error msg =>
            .error (.evalFailed ("jsonPath: " ++ msg ++ ": " ++ ls))
          | .ok r =>
            self (keyOfJVal r :: x) val path parent parentPropName
              hasArrExpr false
      else if strStartsWith ls "@" then
        -- @type() value test (dist/index.js:1969-2033)
        match typeTestMatches ((ls.drop 1).dropRight 2) val with
        | .error e => .error e
        | .ok true =>
          .ok [{ path := path, value := val, parent := parent,
                 parentProperty := parentPropName, hasArrExpr := false }]
        | .ok false => .ok []
      else if strStartsWith ls "`" && jvTruthy val && jvHasOwn val (ls.drop 1) then
        -- `-escaped literal property (dist/index.js:2035-2037)
        self x (jvGet val (ls.drop 1)) (path ++ [ls.drop 1]) val
          (some (ls.drop 1)) hasArrExpr true
      else if ls.contains ',' then
        -- [name1,name2,...] union (dist/index.js:2038-2043)
        walkSeq (fun ptok =>
            self (ptok :: x) val path parent parentPropName true false)
          ((ls.splitOn ",").map .s)
      else if !literalPriority && jvTruthy val && jvHasOwn val ls then
        -- simple case, low priority (dist/index.js:2045-2046)
        self x (jvGet val ls) (path ++ [ls]) val (some ls) hasArrExpr true
      else
        .ok []

/-- `JSONPath.prototype._trace` (dist/index.js:1848-2073): an empty
segment list yields exactly one result tuple (dist/index.js:1852-1861);
a nonempty list takes one `jtraceStep`. -/
def jtrace (cfg : JPConfig) (ev : JPEvaluator) (fuel : Nat)
    (expr : List SegTok) (val : JVal) (path : List String) (parent : JVal)
    (parentPropName : Option String) (hasArrExpr literalPriority : Bool) :
    Except TraceErr (List TraceResult) :=
  match fuel with
  | 0 => .error .fuelOut
  | fuel + 1 =>
    match expr with
    | [] =>
      .ok [{ path := path, value := val, parent := parent,
             parentProperty := parentPropName, hasArrExpr := hasArrExpr }]
    | loc :: x =>
      jtraceStep cfg ev (jtrace cfg ev fuel) loc x val path parent
        parentPropName hasArrExpr literalPriority

/-- The `result.reduce(...)` of `evaluate` (dist/index.js:1792-1800)
with `resultType` fixed to `'value'`: collect each match's value,
concatenating instead of nesting when `flatten` is set and the value is
an array. -/
def collectValues (flatten : Bool) (rs : List TraceResult) : List JVal :=
  rs.foldl (fun acc ea =>
    match flatten, ea.value with
    | true, .arr elems => acc ++ elems
    | _, v => acc ++ [v]) []

/-- `if (exprList[0] === '$' && exprList.length > 1) exprList.shift()`
(dist/index.js:1779-1781). -/
def shiftDollar (l : List SegTok) : List SegTok :=
  match l with
  | .s "$" :: rest => if 0 < rest.length then rest else l
  | _ => l

/-- `JSONPath.prototype.evaluate` (dist/index.js:1735-1801) from the
normalized segment list on: shift a leading `$`, trace, and shape the
result per `wrap`/`flatten` (`resultType` fixed to `'value'`).  The
`.filter(ea => ea && !ea.isParentSelector)` at 1783-1785 is the
identity on the embedded trace's output (see the Part C header); a
missing match yields `[]` when wrapping and `undefined` otherwise; a
single match whose trace never passed through a wildcard/array-style
segment (`hasArrExpr` unset) is returned bare when `wrap` is off;
everything else is returned as an array of values. -/
def evaluateSegs (cfg : JPConfig) (ev : JPEvaluator) (fuel : Nat)
    (json : JVal) (exprList : List SegTok) : Except TraceErr JVal :=
  match jtrace cfg ev fuel (shiftDollar exprList) json ["$"] .null none
      false false with
  | .error e => .error e
  | .ok result =>
    match result with
    | [] => if cfg.wrap then .ok (.arr []) else .ok .undef
    | [r] =>
      if !cfg.wrap && !r.hasArrExpr then .ok r.value
      else .ok (.arr (collectValues cfg.flatten [r]))
    | rs => .ok (.arr (collectValues cfg.flatten rs))

/-- `isScalar` in the sense of claim C4's "scalar leaf": not an array
and not an object. -/
def isScalarLeaf : JVal → Bool
  | .arr _ => false
  | .obj _ => false
  | _ => true

/-- C4 (amended).  With `wrap: false`, a query matching exactly one
scalar leaf returns that scalar bare only when the match was not
produced through a wildcard/array-expression segment (`hasArrExpr`
unset); a single match that did pass through one is returned wrapped in
a one-element array. -/
theorem claim_C4 (cfg : JPConfig) (ev : JPEvaluator) (fuel : Nat)
    (json : JVal) (exprList : List SegTok) (r : TraceResult)
    (h : jtrace cfg ev fuel (shiftDollar exprList) json ["$"] .null none
        false false = .ok [r])
    (hwrap : cfg.wrap = false)
    (hscalar : isScalarLeaf r.value = true) :
    evaluateSegs cfg ev fuel json exprList
      = .ok (if r.hasArrExpr then .arr [r.value] else r.value) := by
  rw [evaluateSegs, h]
  cases harr : r.hasArrExpr with
  | false => simp [hwrap, harr]
  | true =>
    simp only [hwrap, harr, Bool.not_true, Bool.false_and, Bool.not_false,
      if_neg, ite_false, if_false]
    cases hv : r.value <;> simp_all [collectValues, isScalarLeaf]

/-- A concrete evaluator for closed computations: every script fails.
(The traces below never reach a script or filter segment.) -/
def jpNoEval : JPEvaluator := fun code _ => .error code

/-- C4 (counterexample to the claim as stated).  The query `$.a[*]`
against `{"a": [5]}` matches exactly one scalar leaf, yet with
`wrap: false` the engine returns the one-element array `[5]`, not the
bare scalar `5`: the match's traversal passed through a wildcard, so
`hasArrExpr` is set and the bare-return branch
(dist/index.js:1789-1791) is skipped. -/
theorem claim_C4_counterexample :
    evaluateSegs ⟨false, false, true⟩ jpNoEval 6
        (.obj [("a", .arr [.num 5])]) [.s "$", .s "a", .s "*"]
      = .ok (.arr [.num 5])
    ∧ ¬(evaluateSegs ⟨false, false, true⟩ jpNoEval 6
        (.obj [("a", .arr [.num 5])]) [.s "$", .s "a", .s "*"]
      = .ok (.num 5)) := by
  constructor
  · with_unfolding_all rfl
  · intro h
    rw [show evaluateSegs ⟨false, false, true⟩ jpNoEval 6
        (.obj [("a", .arr [.num 5])]) [.s "$", .s "a", .s "*"]
      = .ok (.arr [.num 5]) by with_unfolding_all rfl] at h
    exact JVal.noConfusion (Except.ok.inj h)

/-- Witness for C4 at a concrete input: `$.a` against `{"a": 5}` has a
single scalar match with no wildcard in its traversal, and `wrap:
false` returns the bare `5`. -/
theorem claim_C4_witness :
    evaluateSegs ⟨false, false, true⟩ jpNoEval 6
        (.obj [("a", .num 5)]) [.s "$", .s "a"]
      = .ok (.num 5) := by
  have h := claim_C4 ⟨false, false, true⟩ jpNoEval 6
    (.obj [("a", .num 5)]) [.s "$", .s "a"]
    { path := ["$", "a"], value := .num 5, parent := .obj [("a", .num 5)],
      parentProperty := some "a", hasArrExpr := false }
    (by with_unfolding_all rfl) rfl (by rfl)
  simpa using h

/-! ### Claim C5: slice semantics -/

theorem sliceTest_has_colon {s : String} (h : sliceTest s = true) :
    ':' ∈ s.toList := by
  by_contra hc
  have hsingle : s.toList.splitOn ':' = [s.toList] := by
    apply List.splitOnP_eq_single
    intro x hx
    simp only [beq_iff_eq]
    rintro rfl
    exact hc hx
  rw [sliceTest, hsingle] at h
  exact Bool.noConfusion h

theorem strToIndex_of_colon {s : String} (h : ':' ∈ s.toList) :
    strToIndex s = none := by
  rw [strToIndex.eq_def]
  split
  · rfl
  · next c cs heq =>
    rw [heq] at h
    have hall : (c :: cs).all Char.isDigit = false := by
      rw [Bool.eq_false_iff]
      intro hall
      rw [List.all_eq_true] at hall
      exact absurd (hall ':' h) (by decide)
    simp [hall]

theorem hasOwnTok_slice_false (elems : List JVal) {loc : String}
    (hslice : sliceTest loc = true) :
    hasOwnTok (.arr elems) (.s loc) = false := by
  have hcol := sliceTest_has_colon hslice
  have hlen : ¬(loc = "length") := by
    rintro rfl
    exact absurd hcol (by decide)
  simp [hasOwnTok, jvHasOwn, hlen, strToIndex_of_colon hcol]

/-- Dispatch: on an array, a slice-shaped segment reaches exactly the
`_slice` branch. -/
theorem jtraceStep_slice (cfg : JPConfig) (ev : JPEvaluator)
    (self : List SegTok → JVal → List String → JVal → Option String →
      Bool → Bool → Except TraceErr (List TraceResult))
    {loc : String} (hslice : sliceTest loc = true)
    (x : List SegTok) (elems : List JVal) (path : List String)
    (parent : JVal) (ppn : Option String) (hasArr lit : Bool) :
    jtraceStep cfg ev self (.s loc) x (.arr elems) path parent ppn hasArr lit
      = sliceLoop (fun tok => self (tok :: x) (.arr elems) path parent ppn
            true false)
          (sliceBounds loc elems.length).2.1 (sliceBounds loc elems.length).2.2
          (((sliceBounds loc elems.length).2.1
            - (sliceBounds loc elems.length).1).toNat + 1)
          (sliceBounds loc elems.length).1 := by
  have hown := hasOwnTok_slice_false elems hslice
  have h1 : ¬(loc = "*") := by rintro rfl; exact absurd hslice (by decide)
  have h2 : ¬(loc = "..") := by rintro rfl; exact absurd hslice (by decide)
  have h3 : ¬(loc = "~") := by rintro rfl; exact absurd hslice (by decide)
  have h4 : ¬(loc = "$") := by rintro rfl; exact absurd hslice (by decide)
  simp [jtraceStep, hown, h1, h2, h3, h4, hslice]

/-- The index sequence of claim C5's words: `start, start+step, ...`
strictly below `end`. -/
def stepIndices (endI step : Int) : Nat → Int → List Int
  | 0, _ => []
  | f + 1, i => if i < endI then i :: stepIndices endI step f (i + step) else []

/-- The `_slice` loop visits exactly `stepIndices`, in order. -/
theorem sliceLoop_eq_map {tr : SegTok → Except TraceErr (List TraceResult)}
    {mk : Int → TraceResult} {endI step : Int} (hstep : 0 < step)
    (htr : ∀ i : Int, 0 ≤ i → i < endI → tr (.n i.toNat) = .ok [mk i]) :
    ∀ (lf : Nat) (i : Int), 0 ≤ i →
    sliceLoop tr endI step lf i = .ok ((stepIndices endI step lf i).map mk) := by
  intro lf
  induction lf with
  | zero => intro i _; rfl
  | succ f ih =>
    intro i hi
    rw [sliceLoop, stepIndices]
    by_cases h : i < endI
    · rw [if_pos h, if_pos h, htr i hi h, ih (i + step) (by omega)]
      rfl
    · rw [if_neg h, if_neg h]
      rfl

theorem jtrace_zero (cfg : JPConfig) (ev : JPEvaluator) (expr : List SegTok)
    (val : JVal) (path : List String) (parent : JVal) (ppn : Option String)
    (hasArr lit : Bool) :
    jtrace cfg ev 0 expr val path parent ppn hasArr lit = .error .fuelOut := rfl

theorem jtrace_nil (cfg : JPConfig) (ev : JPEvaluator) (fuel : Nat)
    (val : JVal) (path : List String) (parent : JVal) (ppn : Option String)
    (hasArr lit : Bool) :
    jtrace cfg ev (fuel + 1) [] val path parent ppn hasArr lit
      = .ok [{ path := path, value := val, parent := parent,
               parentProperty := ppn, hasArrExpr := hasArr }] := rfl

theorem jtrace_succ (cfg : JPConfig) (ev : JPEvaluator) (fuel : Nat)
    (loc : SegTok) (x : List SegTok) (val : JVal) (path : List String)
    (parent : JVal) (ppn : Option String) (hasArr lit : Bool) :
    jtrace cfg ev (fuel + 1) (loc :: x) val path parent ppn hasArr lit
      = jtraceStep cfg ev (jtrace cfg ev fuel) loc x val path parent ppn
          hasArr lit := rfl

theorem sliceBounds_facts {loc : String} (hslice : sliceTest loc = true)
    {len : Int} (hlen : 0 ≤ len) :
    0 ≤ (sliceBounds loc len).1 ∧ (sliceBounds loc len).2.1 ≤ len
      ∧ 0 < (sliceBounds loc len).2.2 := by
  refine ⟨?_, ?_, ?_⟩
  · simp only [sliceBounds]
    split
    · exact le_max_left 0 _
    · next h =>
      exact le_min hlen (by omega)
  · simp only [sliceBounds]
    split
    · next h =>
      exact max_le hlen (by omega)
    · exact min_le_left _ _
  · simp only [sliceBounds]
    rw [sliceTest] at hslice
    cases hsp : loc.toList.splitOn ':' with
    | nil => rw [hsp] at hslice; exact Bool.noConfusion hslice
    | cons a tl =>
      cases tl with
      | nil => rw [hsp] at hslice; exact Bool.noConfusion hslice
      | cons b tl2 =>
        cases tl2 with
        | nil =>
          norm_num [sliceComponent]
        | cons c tl3 =>
          cases tl3 with
          | nil =>
            rw [hsp] at hslice
            simp only [Bool.and_eq_true] at hslice
            have hc : digitsOnlyL c = true := hslice.2
            simp only [List.getD, List.get?, Option.getD_some]
            by_cases hcempty : c = []
            · simp [sliceComponent, hcempty]
            · have : parseIntOpt c = some ((digitsToNat c : Int)) := by
                rw [parseIntOpt.eq_def]
                cases c with
                | nil => exact absurd rfl hcempty
                | cons c0 crest =>
                  have hc0 : c0.isDigit = true := by
                    have := List.all_eq_true.1 hc c0 (by simp)
                    exact this
                  have hne : ¬(c0 = '-') := by
                    rintro rfl
                    exact absurd hc0 (by decide)
                  split
                  · simp_all
                  · next heq =>
                    exact absurd (List.cons.inj heq).1 hne
                  · next _ =>
                    simp [hc]
              simp only [sliceComponent, hcempty, if_false, this]
              split
              · norm_num
              · next h0 =>
                have : (0 : Int) ≤ (digitsToNat c : Int) := Int.ofNat_nonneg _
                omega
          | cons d tl4 =>
            rw [hsp] at hslice; exact Bool.noConfusion hslice

/-- The result tuple `_trace` records for one selected slice index. -/
def sliceResult (path : List String) (elems : List JVal) (i : Int) :
    TraceResult :=
  { path := path ++ [toString i.toNat],
    value := (elems.get? i.toNat).getD .undef,
    parent := .arr elems,
    parentProperty := some (toString i.toNat),
    hasArrExpr := true }

/-- C5 (amended).  On an array, a slice segment `start:end:step`
selects exactly the elements at the indices `start', start'+step', ...`
strictly below `end'` (in order), where `start'`, `end'` and `step'`
are the source's index arithmetic (`sliceBounds`): missing components
default to `0` / the array length / `1`, negative `start`/`end` wrap by
the array's length and are clamped to `[0, length]` — and, because each
component is read through `part && parseInt(part) || default`, an
explicit `0` also falls back to its default, so `end = 0` means the
array length (not "before index 0") and `step = 0` means `1`. -/
theorem claim_C5 (cfg : JPConfig) (ev : JPEvaluator) (g : Nat)
    (elems : List JVal) (loc : String) (hslice : sliceTest loc = true)
    (path : List String) (parent : JVal) (ppn : Option String)
    (hasArr lit : Bool) :
    jtrace cfg ev (g + 3) [.s loc] (.arr elems) path parent ppn hasArr lit
      = .ok ((stepIndices (sliceBounds loc elems.length).2.1
          (sliceBounds loc elems.length).2.2
          (((sliceBounds loc elems.length).2.1
            - (sliceBounds loc elems.length).1).toNat + 1)
          (sliceBounds loc elems.length).1).map (sliceResult path elems)) := by
  obtain ⟨hs1, he1, hst⟩ :=
    @sliceBounds_facts loc hslice ((elems.length : Int)) (by positivity)
  rw [show g + 3 = (g + 2) + 1 from by omega, jtrace_succ,
    jtraceStep_slice cfg ev _ hslice]
  refine sliceLoop_eq_map hst ?_ _ _ hs1
  intro i hi hiend
  have hlt : i.toNat < elems.length := by omega
  rw [show g + 2 = (g + 1) + 1 from by omega, jtrace_succ]
  have hcond : ((!(SegTok.n i.toNat).isStr || false)
      && jvTruthy (.arr elems) && hasOwnTok (.arr elems) (.n i.toNat)) = true := by
    simp [SegTok.isStr, jvTruthy, hasOwnTok, hlt]
  rw [jtraceStep, if_pos hcond, jtrace_nil]
  simp [jvGetTok, SegTok.str, sliceResult, List.get?_eq_getElem?,
    List.getD, hlt]

/-- C5 (counterexample to the claim as stated).  The slice `[0:0]` on a
5-element array should, per the claim ("indices start ≤ i < end, end
exclusive"), select nothing — but `end` is read through
`parts[1] && parseInt(parts[1]) || len` (dist/index.js:2094), and
`parseInt("0")` is falsy, so an explicit end of `0` becomes the array
length and all five elements are returned. -/
theorem claim_C5_counterexample :
    evaluateSegs ⟨true, false, true⟩ jpNoEval 9
        (.arr [.num 10, .num 20, .num 30, .num 40, .num 50]) [.s "0:0"]
      = .ok (.arr [.num 10, .num 20, .num 30, .num 40, .num 50])
    ∧ ¬(evaluateSegs ⟨true, false, true⟩ jpNoEval 9
        (.arr [.num 10, .num 20, .num 30, .num 40, .num 50]) [.s "0:0"]
      = .ok (.arr [])) := by
  constructor
  · with_unfolding_all rfl
  · intro h
    rw [show evaluateSegs ⟨true, false, true⟩ jpNoEval 9
        (.arr [.num 10, .num 20, .num 30, .num 40, .num 50]) [.s "0:0"]
      = .ok (.arr [.num 10, .num 20, .num 30, .num 40, .num 50])
      by with_unfolding_all rfl] at h
    simp at h

/-- Witness for C5 at the claim's concrete examples: `[1:3]` on a
5-element array selects exactly indices 1 and 2, `[-2:]` the last two
elements, in order. -/
theorem claim_C5_witness :
    jtrace ⟨true, false, true⟩ jpNoEval 3 [.s "1:3"]
        (.arr [.num 10, .num 20, .num 30, .num 40, .num 50])
        ["$"] .null none false false
      = .ok [{ path := ["$", "1"], value := .num 20,
               parent := .arr [.num 10, .num 20, .num 30, .num 40, .num 50],
               parentProperty := some "1", hasArrExpr := true },
             { path := ["$", "2"], value := .num 30,
               parent := .arr [.num 10, .num 20, .num 30, .num 40, .num 50],
               parentProperty := some "2", hasArrExpr := true }]
    ∧ jtrace ⟨true, false, true⟩ jpNoEval 3 [.s "-2:"]
        (.arr [.num 10, .num 20, .num 30, .num 40, .num 50])
        ["$"] .null none false false
      = .ok [{ path := ["$", "3"], value := .num 40,
               parent := .arr [.num 10, .num 20, .num 30, .num 40, .num 50],
               parentProperty := some "3", hasArrExpr := true },
             { path := ["$", "4"], value := .num 50,
               parent := .arr [.num 10, .num 20, .num 30, .num 40, .num 50],
               parentProperty := some "4", hasArrExpr := true }]
    := by
  constructor
  · rw [claim_C5 ⟨true, false, true⟩ jpNoEval 0
      [.num 10, .num 20, .num 30, .num 40, .num 50] "1:3"
      (by with_unfolding_all rfl) ["$"] .null none false false]
    with_unfolding_all rfl
  · rw [claim_C5 ⟨true, false, true⟩ jpNoEval 0
      [.num 10, .num 20, .num 30, .num 40, .num 50] "-2:"
      (by with_unfolding_all rfl) ["$"] .null none false false]
    with_unfolding_all rfl

/-! ### Claim C8: evaluation disabled -/

theorem startsWith_qmark_shape {s : String}
    (h : strStartsWith s "?(" = true) :
    ∃ rest, s.toList = '?' :: '(' :: rest := by
  rw [strStartsWith] at h
  cases hs : s.toList with
  | nil => rw [hs] at h; simp [listIsPrefix] at h
  | cons c1 t1 =>
    rw [hs] at h
    cases t1 with
    | nil => simp [listIsPrefix] at h
    | cons c2 t2 =>
      simp only [show ("?(").toList = ['?', '('] from rfl, listIsPrefix,
        Bool.and_eq_true, decide_eq_true_eq] at h
      exact ⟨t2, by rw [← h.1, ← h.2.1]⟩

theorem startsWith_paren_shape {s : String}
    (h : strStartsWith s "(" = true) :
    ∃ rest, s.toList = '(' :: rest := by
  rw [strStartsWith] at h
  cases hs : s.toList with
  | nil => rw [hs] at h; simp [listIsPrefix] at h
  | cons c1 t1 =>
    rw [hs] at h
    simp only [show ("(").toList = ['('] from rfl, listIsPrefix,
      Bool.and_eq_true, decide_eq_true_eq] at h
    exact ⟨t1, by rw [← h.1]⟩

theorem signedDigitsL_head_false {c : Char} {l : List Char}
    (hd : c.isDigit = false) (hm : ¬(c = '-')) :
    signedDigitsL (c :: l) = false := by
  rw [signedDigitsL.eq_def]
  split
  · next heq => exact absurd (List.cons.inj heq).1 hm
  · simp [digitsOnlyL, hd]

/-- A segment whose first character is neither a digit, `-`, nor `:`
cannot be a slice. -/
theorem sliceTest_head_false {s : String} {c : Char} {rest : List Char}
    (hs : s.toList = c :: rest) (hd : c.isDigit = false)
    (hm : ¬(c = '-')) (hc : ¬(c = ':')) :
    sliceTest s = false := by
  rw [sliceTest, hs]
  rw [show List.splitOn ':' (c :: rest) = (List.splitOn ':' rest).modifyHead (c :: ·) by
    rw [List.splitOn, List.splitOn, List.splitOnP_cons]
    simp [hc]]
  have hne := List.splitOnP_ne_nil (fun x => x == ':') rest
  rw [List.splitOn] at *
  cases hL : List.splitOnP (fun x => x == ':') rest with
  | nil => exact absurd hL hne
  | cons l0 ltl =>
    cases ltl with
    | nil => rfl
    | cons b t2 =>
      cases t2 with
      | nil => simp [List.modifyHead, signedDigitsL_head_false hd hm]
      | cons c3 t3 =>
        cases t3 with
        | nil => simp [List.modifyHead, signedDigitsL_head_false hd hm]
        | cons d t4 => rfl

theorem jtraceStep_filter_prevented (cfg : JPConfig) (ev : JPEvaluator)
    (self : List SegTok → JVal → List String → JVal → Option String →
      Bool → Bool → Except TraceErr (List TraceResult))
    {loc : String} (hq : strStartsWith loc "?(" = true)
    (x : List SegTok) (val : JVal) (path : List String) (parent : JVal)
    (ppn : Option String) (hasArr lit : Bool)
    (hdis : cfg.evalEnabled = false)
    (hnotlit : (lit && jvTruthy val && jvHasOwn val loc) = false) :
    jtraceStep cfg ev self (.s loc) x val path parent ppn hasArr lit
      = .error (.evalPrevented "Eval [?(expr)] prevented in JSONPath expression.") := by
  obtain ⟨rest, hs⟩ := startsWith_qmark_shape hq
  have h1 : ¬(loc = "*") := by rintro rfl; simp at hs
  have h2 : ¬(loc = "..") := by rintro rfl; simp at hs
  have h3 : ¬(loc = "~") := by rintro rfl; simp at hs
  have h4 : ¬(loc = "$") := by rintro rfl; simp at hs
  have hsl : sliceTest loc = false :=
    sliceTest_head_false hs (by decide) (by decide) (by decide)
  have hcond : ((!(SegTok.s loc).isStr || lit) && jvTruthy val
      && hasOwnTok val (.s loc)) = false := by
    simpa [SegTok.isStr, hasOwnTok] using hnotlit
  simp [jtraceStep, hcond, h1, h2, h3, h4, hsl, hq, hdis]

theorem jtraceStep_script_prevented (cfg : JPConfig) (ev : JPEvaluator)
    (self : List SegTok → JVal → List String → JVal → Option String →
      Bool → Bool → Except TraceErr (List TraceResult))
    {loc : String} (hp : strStartsWith loc "(" = true)
    (x : List SegTok) (val : JVal) (path : List String) (parent : JVal)
    (ppn : Option String) (hasArr lit : Bool)
    (hdis : cfg.evalEnabled = false)
    (hnotlit : (lit && jvTruthy val && jvHasOwn val loc) = false) :
    jtraceStep cfg ev self (.s loc) x val path parent ppn hasArr lit
      = .error (.evalPrevented "Eval [(expr)] prevented in JSONPath expression.") := by
  obtain ⟨rest, hs⟩ := startsWith_paren_shape hp
  have h1 : ¬(loc = "*") := by rintro rfl; simp at hs
  have h2 : ¬(loc = "..") := by rintro rfl; simp at hs
  have h3 : ¬(loc = "~") := by rintro rfl; simp at hs
  have h4 : ¬(loc = "$") := by rintro rfl; simp at hs
  have hsl : sliceTest loc = false :=
    sliceTest_head_false hs (by decide) (by decide) (by decide)
  have hqf : strStartsWith loc "?(" = false := by
    rw [strStartsWith, hs]
    simp [listIsPrefix]
  have hcond : ((!(SegTok.s loc).isStr || lit) && jvTruthy val
      && hasOwnTok val (.s loc)) = false := by
    simpa [SegTok.isStr, hasOwnTok] using hnotlit
  simp [jtraceStep, hcond, h1, h2, h3, h4, hsl, hqf, hp, hdis]

/-- C8 (amended).  With evaluation disabled (`eval: false`), a filter
segment `?(...)` or a parenthesized script segment `(...)` raises the
explicit "Eval ... prevented in JSONPath expression." error, aborting
the whole trace with it (no partial result) — UNLESS the segment is
consumed as a literal own property of the current value, which happens
exactly when the trace reached it with literal priority (i.e. after a
preceding plain-property, wildcard or backtick descent) and the value
owns the segment's literal text as a key (dist/index.js:1886-1888).
In particular, at the head of a query — where literal priority is off —
the error is always raised. -/
theorem claim_C8 (cfg : JPConfig) (ev : JPEvaluator) (fuel : Nat)
    (hdis : cfg.evalEnabled = false) :
    (∀ (loc : String) (x : List SegTok) (val : JVal) (path : List String)
        (parent : JVal) (ppn : Option String) (hasArr lit : Bool),
      strStartsWith loc "?(" = true →
      (lit && jvTruthy val && jvHasOwn val loc) = false →
      jtrace cfg ev (fuel + 1) (.s loc :: x) val path parent ppn hasArr lit
        = .error (.evalPrevented "Eval [?(expr)] prevented in JSONPath expression."))
    ∧ (∀ (loc : String) (x : List SegTok) (val : JVal) (path : List String)
        (parent : JVal) (ppn : Option String) (hasArr lit : Bool),
      strStartsWith loc "(" = true →
      (lit && jvTruthy val && jvHasOwn val loc) = false →
      jtrace cfg ev (fuel + 1) (.s loc :: x) val path parent ppn hasArr lit
        = .error (.evalPrevented "Eval [(expr)] prevented in JSONPath expression."))
    ∧ (∀ (loc : String) (x : List SegTok) (json : JVal),
      strStartsWith loc "?(" = true →
      evaluateSegs cfg ev (fuel + 1) json (.s loc :: x)
        = .error (.evalPrevented "Eval [?(expr)] prevented in JSONPath expression.")) := by
  refine ⟨?_, ?_, ?_⟩
  · intro loc x val path parent ppn hasArr lit hq hnotlit
    rw [jtrace_succ]
    exact jtraceStep_filter_prevented cfg ev _ hq x val path parent ppn
      hasArr lit hdis hnotlit
  · intro loc x val path parent ppn hasArr lit hp hnotlit
    rw [jtrace_succ]
    exact jtraceStep_script_prevented cfg ev _ hp x val path parent ppn
      hasArr lit hdis hnotlit
  · intro loc x json hq
    have hne : ¬(loc = "$") := by
      rintro rfl
      obtain ⟨rest, hs⟩ := startsWith_qmark_shape hq
      simp at hs
    rw [evaluateSegs]
    rw [show shiftDollar (.s loc :: x) = .s loc :: x by
      rw [shiftDollar.eq_def]
      split
      · next heq =>
        exact absurd (by simpa using congrArg (fun l => l.headD (SegTok.n 0)) heq)
          (by intro hcontra; exact hne (by simpa using hcontra))
      · rfl]
    rw [jtrace_succ, jtraceStep_filter_prevented cfg ev _ hq x json ["$"]
      .null none false false hdis (by simp)]

/-- C8 (counterexample to the claim as stated).  With evaluation
disabled, the query `$.a[?(@.b)]` against `{"a": {"?(@.b)": 1}}` —
whose inner object literally owns the key `"?(@.b)"` — returns `1`
with no error: after the descent into `a` the trace runs with literal
priority, and the filter-shaped segment is consumed as a plain own
property (dist/index.js:1886-1888) instead of reaching the
eval-prevented check. -/
theorem claim_C8_counterexample :
    evaluateSegs ⟨false, false, false⟩ jpNoEval 6
        (.obj [("a", .obj [("?(@.b)", .num 1)])]) [.s "$", .s "a", .s "?(@.b)"]
      = .ok (.num 1)
    ∧ ¬(evaluateSegs ⟨false, false, false⟩ jpNoEval 6
        (.obj [("a", .obj [("?(@.b)", .num 1)])]) [.s "$", .s "a", .s "?(@.b)"]
      = .error (.evalPrevented "Eval [?(expr)] prevented in JSONPath expression.")) := by
  constructor
  · with_unfolding_all rfl
  · intro h
    rw [show evaluateSegs ⟨false, false, false⟩ jpNoEval 6
        (.obj [("a", .obj [("?(@.b)", .num 1)])]) [.s "$", .s "a", .s "?(@.b)"]
      = .ok (.num 1) by with_unfolding_all rfl] at h
    exact Except.noConfusion h

/-- Witness for C8 at concrete inputs: a head filter segment and a head
script segment both abort with the explicit prevented-eval error. -/
theorem claim_C8_witness :
    evaluateSegs ⟨false, false, false⟩ jpNoEval 3 (.obj [("b", .num 1)])
        [.s "?(@.x)"]
      = .error (.evalPrevented "Eval [?(expr)] prevented in JSONPath expression.")
    ∧ jtrace ⟨false, false, false⟩ jpNoEval 3 [.s "(@.x)"] (.obj [("b", .num 1)])
        ["$"] .null none false false
      = .error (.evalPrevented "Eval [(expr)] prevented in JSONPath expression.") := by
  constructor
  · exact (claim_C8 ⟨false, false, false⟩ jpNoEval 2 rfl).2.2 "?(@.x)" []
      (.obj [("b", .num 1)]) (by decide)
  · exact (claim_C8 ⟨false, false, false⟩ jpNoEval 2 rfl).2.1 "(@.x)" []
      (.obj [("b", .num 1)]) ["$"] .null none false false (by decide) (by decide)

/-! ## Part D: the template resolver (claims C3, C6, C7, C9)

`resolveJsonPathTemplates` (dist/index.js:2421-2472) and its helpers.
Modelling decisions:

* The `{$...}` scanner embeds `templateString.replace(TEMPLATE_PATTERN,
  cb)` with `TEMPLATE_PATTERN = /\{(\$[^}]+)\}/g` (dist/index.js:2253)
  as a single left-to-right pass (`scanTemplates`): at a `{`
  immediately followed by `$` and at least one further non-`}`
  character and then `}`, the brace group is replaced by the callback's
  result and scanning resumes after it; any `{` that cannot open a
  match is emitted literally (a following `{` may still open one).
  The callback also returns the error strings it pushes, which are
  accumulated in match order — `errors` is the mutable array the
  source's callback closes over.
* `injectSgnlNamespace` (dist/index.js:2282-2299) takes the formatted
  timestamp (`formatRFC3339(new Date())`) and the fresh UUID
  (`crypto.randomUUID()`) as explicit parameters `now`/`uuid`; the
  impure reads happen once per call in the source, which is exactly
  what taking them as per-call parameters models.  Object spreads are
  `setKey` folds: later entries overwrite earlier ones in place, new
  keys append.  Spreading a non-object `jobContext?.sgnl` contributes
  nothing (the string case, which would spread character indices, is
  not modelled; no claim passes one).
* `toPathArrayDotted` models `JSONPath.toPathArray`
  (dist/index.js:2193-2235) restricted to plain dot-separated paths,
  where the whole regex pipeline reduces to splitting on `.`; the
  bracket/filter protection, `^` expansion, `..` collapsing and the
  path cache are not embedded, and the template-resolver claims use
  only plain dotted placeholder paths.
* `jsonStringify` carries the recursion fuel shared with the engine;
  string escaping covers quotes and backslashes (no claim stringifies
  control characters), and numbers print in the idealized rational
  form.
-/

/-- `NO_VALUE_PLACEHOLDER` (dist/index.js:2263). -/
def NO_VALUE_PLACEHOLDER : String := "{No Value}"

/-- After `{$c`, accept further non-`}` characters and then a final
`}` (the tail of `^\{(\$[^}]+)\}$`). -/
def bodyEnd : List Char → Bool
  | [] => false
  | ['}'] => true
  | c :: rest => ¬(c = '}') && bodyEnd rest

/-- `EXACT_TEMPLATE_PATTERN.test(s)` with
`EXACT_TEMPLATE_PATTERN = /^\{(\$[^}]+)\}$/` (dist/index.js:2258). -/
def isExactTemplate (s : String) : Bool :=
  match s.toList with
  | '{' :: '$' :: c :: rest => ¬(c = '}') && bodyEnd (c :: rest)
  | _ => false

/-- `templateString.replace(TEMPLATE_PATTERN, cb)` as a single pass.
The state is `none` (outside any candidate) or `some buf` (after a `{`,
having read `buf`, none of which is `}`).  The callback returns the
replacement text and the errors it pushed. -/
def scanTemplates (cb : String → String × List String) :
    Option (List Char) → List Char → List Char × List String
  | none, [] => ([], [])
  | some buf, [] => ('{' :: buf, [])
  | none, c :: rest =>
    if c = '{' then scanTemplates cb (some []) rest
    else
      let r := scanTemplates cb none rest
      (c :: r.1, r.2)
  | some buf, c :: rest =>
    if c = '}' then
      match buf with
      | '$' :: b :: btl =>
        let fr := cb (String.mk ('$' :: b :: btl))
        let r := scanTemplates cb none rest
        (fr.1.toList ++ r.1, fr.2 ++ r.2)
      | _ =>
        -- `{}` or `{$}`: no match here, emit literally
        let r := scanTemplates cb none rest
        ('{' :: (buf ++ '}' :: r.1), r.2)
    else if buf.isEmpty && !(c = '$') then
      if c = '{' then
        -- this `{` cannot match, but the next may
        let r := scanTemplates cb (some []) rest
        ('{' :: r.1, r.2)
      else
        let r := scanTemplates cb none rest
        ('{' :: c :: r.1, r.2)
    else
      scanTemplates cb (some (buf ++ [c])) rest

/-- String content escaping of `JSON.stringify` (quotes and
backslashes; control characters are outside every claim's inputs). -/
def jsonEscape (s : String) : String :=
  String.mk (s.toList.flatMap fun c =>
    if c = '"' then ['\\', '"']
    else if c = '\\' then ['\\', '\\']
    else [c])

/-- `JSON.stringify` (as used by `valueToString`,
dist/index.js:2345), with recursion fuel: nested `undefined` prints as
`null` inside arrays and its key is dropped inside objects. -/
def jsonStringify : Nat → JVal → String
  | 0, _ => ""
  | _ + 1, .null => "null"
  | _ + 1, .undef => "null"
  | _ + 1, .bool b => cond b "true" "false"
  | _ + 1, .num q => if q.den = 1 then toString q.num else toString q
  | _ + 1, .str s => "\"" ++ jsonEscape s ++ "\""
  | f + 1, .arr items =>
    "[" ++ String.intercalate "," (items.map (jsonStringify f)) ++ "]"
  | f + 1, .obj fields =>
    "\x7b" ++ String.intercalate ","
      ((fields.filter (fun p => !(p.2 matches .undef))).map fun p =>
        "\"" ++ jsonEscape p.1 ++ "\":" ++ jsonStringify f p.2) ++ "\x7d"

/-- `valueToString` (dist/index.js:2336-2346): `null`/`undefined`
become the empty string, strings pass through, everything else is
JSON-serialized. -/
def valueToString (fuel : Nat) : JVal → String
  | .null => ""
  | .undef => ""
  | .str s => s
  | v => jsonStringify fuel v

/-- `JSONPath.toPathArray` restricted to plain dotted paths (see the
Part D header). -/
def toPathArrayDotted (expr : String) : List SegTok :=
  (expr.toList.splitOn '.').map (fun cs => SegTok.s (String.mk cs))

/-- The path normalization of `extractJsonPathValue`
(dist/index.js:2311). -/
def normalizeJsonPath (p : String) : String :=
  if strStartsWith p "$" then p else "$." ++ p

/-- `extractJsonPathValue` (dist/index.js:2308-2328): query with the
engine defaults except `wrap: false`; an exception, an `undefined`
result and a `null` result all report "not found" with a `null`
value. -/
def extractJsonPathValue (ev : JPEvaluator) (fuel : Nat) (json : JVal)
    (jsonPath : String) : JVal × Bool :=
  match evaluateSegs ⟨false, false, true⟩ ev fuel json
      (toPathArrayDotted (normalizeJsonPath jsonPath)) with
  | .error _ => (.null, false)
  | .ok .undef => (.null, false)
  | .ok .null => (.null, false)
  | .ok v => (v, true)

/-- The replacement callback of `resolveTemplateString`
(dist/index.js:2364-2386), returning the substitution text and the
errors it pushes. -/
def templateCallback (ev : JPEvaluator) (fuel : Nat) (jobContext : JVal)
    (isExact omitNV : Bool) (jsonPath : String) : String × List String :=
  let r := extractJsonPathValue ev fuel jobContext jsonPath
  if r.2 = false then
    let err := "failed to extract field '" ++ jsonPath ++ "': field not found"
    if isExact && omitNV then ("", [err])
    else (NO_VALUE_PLACEHOLDER, [err])
  else
    let strValue := valueToString fuel r.1
    if strValue = "" then
      ("", ["failed to extract field '" ++ jsonPath ++ "': field is empty"])
    else (strValue, [])

/-- `resolveTemplateString` (dist/index.js:2357-2389): test for an
exact whole-string template, then replace every `{$...}` occurrence,
accumulating errors; errors are returned, never thrown. -/
def resolveTemplateString (ev : JPEvaluator) (fuel : Nat)
    (templateString : String) (jobContext : JVal) (omitNV : Bool) :
    String × List String :=
  let isExact := isExactTemplate templateString
  let r := scanTemplates (templateCallback ev fuel jobContext isExact omitNV)
    none templateString.toList
  (String.mk r.1, r.2)

/-- `{...base, ...extra}`: fold the overriding entries in. -/
def objectSpread (base extra : List (String × JVal)) : List (String × JVal) :=
  extra.foldl (fun acc p => setKey acc p.1 p.2) base

/-- The own fields of `v?.k` when it is an object, nothing otherwise. -/
def objFieldsOf (l : List (String × JVal)) (k : String) : List (String × JVal) :=
  match lookupField k l with
  | some (.obj fs) => fs
  | _ => []

/-- `injectSgnlNamespace` (dist/index.js:2282-2299): set `sgnl` to the
caller's `sgnl` fields with `time` and `random` replaced by
`{now, ...caller.time}` and `{uuid, ...caller.random}` — the caller's
entries spread last, so they win over the injected ones. -/
def injectSgnlNamespace (now uuid : String) (ctx : List (String × JVal)) :
    List (String × JVal) :=
  let sgnlFields := objFieldsOf ctx "sgnl"
  let timeObj := objectSpread [("now", .str now)] (objFieldsOf sgnlFields "time")
  let randomObj :=
    objectSpread [("uuid", .str uuid)] (objFieldsOf sgnlFields "random")
  let sgnlObj := setKey (setKey sgnlFields "time" (.obj timeObj))
    "random" (.obj randomObj)
  setKey ctx "sgnl" (.obj sgnlObj)

/-- The omission test of `resolveValue` (dist/index.js:2448,2458):
strict equality against `''` / the marker only ever holds for
strings. -/
def isOmittedVal : JVal → Bool
  | .str s => s = "" || s = NO_VALUE_PLACEHOLDER
  | _ => false

/-- `value.map(item => resolveValue(item))` with the errors each call
pushes, in order. -/
def resolveEach (rf : JVal → JVal × List String) :
    List JVal → List JVal × List String
  | [] => ([], [])
  | v :: tl =>
    let r := rf v
    let rest := resolveEach rf tl
    (r.1 :: rest.1, r.2 ++ rest.2)

/-- The `Object.entries` loop of `resolveValue` (dist/index.js:2452-2461):
every value is resolved (so its errors are always recorded), and under
omission a key whose resolved value is omitted is skipped. -/
def resolveFields (rf : JVal → JVal × List String) (omitNV : Bool) :
    List (String × JVal) → List (String × JVal) × List String
  | [] => ([], [])
  | (k, v) :: tl =>
    let r := rf v
    let rest := resolveFields rf omitNV tl
    if omitNV && isOmittedVal r.1 then (rest.1, r.2 ++ rest.2)
    else ((k, r.1) :: rest.1, r.2 ++ rest.2)

/-- `resolveValue` (dist/index.js:2435-2467) with recursion fuel
(`efuel` is the engine fuel of the JSONPath queries, `ctx` the
already-injected job context); the second component is the errors
pushed to `allErrors` during the call. -/
def resolveValue (ev : JPEvaluator) (efuel : Nat) (ctx : JVal)
    (omitNV : Bool) : Nat → JVal → JVal × List String
  | 0, v => (v, [])
  | f + 1, v =>
    match v with
    | .str s =>
      let r := resolveTemplateString ev efuel s ctx omitNV
      (.str r.1, r.2)
    | .arr items =>
      let rs := resolveEach (resolveValue ev efuel ctx omitNV f) items
      if omitNV then (.arr (rs.1.filter (fun item => !(isOmittedVal item))), rs.2)
      else (.arr rs.1, rs.2)
    | .obj fields =>
      let rs := resolveFields (resolveValue ev efuel ctx omitNV f) omitNV fields
      (.obj rs.1, rs.2)
    | other => (other, [])

/-- `resolveJsonPathTemplates` (dist/index.js:2424-2472).  `now` and
`uuid` stand for the per-call `formatRFC3339(new Date())` and
`crypto.randomUUID()`; `jobContext` is the caller's context as a field
list (`jobContext || {}` — a `null` caller context is the empty
list). -/
def resolveJsonPathTemplates (ev : JPEvaluator) (efuel rfuel : Nat)
    (now uuid : String) (input : JVal) (jobContext : List (String × JVal))
    (omitNV injectNs : Bool) : JVal × List String :=
  let resolvedJobContext :=
    if injectNs then JVal.obj (injectSgnlNamespace now uuid jobContext)
    else JVal.obj jobContext
  resolveValue ev efuel resolvedJobContext omitNV rfuel input

theorem lookup_setKey_self (l : Subs) (k : String) (v : JVal) :
    lookupField k (setKey l k v) = some v := by
  induction l with
  | nil => simp [setKey, lookupField]
  | cons hd tl ih =>
    obtain ⟨k', v'⟩ := hd
    by_cases h : k' = k
    · simp [setKey, h, lookupField]
    · simp [setKey, h, lookupField, ih]

theorem lookup_setKey_ne {k' k : String} (h : ¬(k' = k)) (l : Subs) (v : JVal) :
    lookupField k' (setKey l k v) = lookupField k' l := by
  have h' : ¬(k = k') := fun hh => h hh.symm
  induction l with
  | nil => simp [setKey, lookupField, h']
  | cons hd tl ih =>
    obtain ⟨k0, v0⟩ := hd
    by_cases h0 : k0 = k
    · subst h0
      simp [setKey, lookupField, h']
    · simp [setKey, h0, lookupField, ih]

theorem lookupField_eq_none {k : String} {l : List (String × JVal)}
    (h : ¬(k ∈ l.map Prod.fst)) : lookupField k l = none := by
  induction l with
  | nil => rfl
  | cons hd tl ih =>
    obtain ⟨k0, v0⟩ := hd
    simp only [List.map_cons, List.mem_cons] at h
    push_neg at h
    have hne : ¬(k0 = k) := fun hh => h.1 hh.symm
    simp [lookupField, hne, ih h.2]

theorem lookup_objectSpread {k : String} (base : List (String × JVal))
    {extra : List (String × JVal)} (hnd : (extra.map Prod.fst).Nodup) :
    lookupField k (objectSpread base extra)
      = match lookupField k extra with
        | some w => some w
        | none => lookupField k base := by
  induction extra generalizing base with
  | nil => simp [objectSpread, lookupField]
  | cons hd tl ih =>
    obtain ⟨k0, v0⟩ := hd
    simp only [List.map_cons, List.nodup_cons] at hnd
    have hstep : objectSpread base ((k0, v0) :: tl)
        = objectSpread (setKey base k0 v0) tl := rfl
    rw [hstep, ih _ hnd.2]
    by_cases hk : k0 = k
    · subst hk
      rw [lookupField_eq_none hnd.1]
      simp [lookupField, lookup_setKey_self]
    · cases hcase : lookupField k tl with
      | none => simp [lookupField, hk, hcase, lookup_setKey_ne (fun hh : k = k0 => hk hh.symm)]
      | some w => simp [lookupField, hk, hcase]

/-- A segment string that hits none of `_trace`'s special branches: it
can only be consumed as a literal property. -/
abbrev plainProp (name : String) : Prop :=
  ¬(name = "*") ∧ ¬(name = "..") ∧ ¬(name = "~") ∧ ¬(name = "$")
    ∧ sliceTest name = false ∧ strStartsWith name "?(" = false
    ∧ strStartsWith name "(" = false ∧ strStartsWith name "@" = false
    ∧ strStartsWith name "`" = false ∧ name.contains ',' = false

/-- Executable form of `plainProp`, for discharging it on concrete
names by evaluation. -/
def plainPropB (name : String) : Bool :=
  !(name == "*") && !(name == "..") && !(name == "~") && !(name == "$")
    && !(sliceTest name) && !(strStartsWith name "?(")
    && !(strStartsWith name "(") && !(strStartsWith name "@")
    && !(strStartsWith name "`") && !(name.contains ',')

theorem plainProp_of_B {name : String} (h : plainPropB name = true) :
    plainProp name := by
  simp only [plainPropB, Bool.and_eq_true, Bool.not_eq_true',
    beq_eq_false_iff_ne, ne_eq] at h
  obtain ⟨⟨⟨⟨⟨⟨⟨⟨⟨ha, hb⟩, hc⟩, hd⟩, he⟩, hf⟩, hg⟩, hh⟩, hi⟩, hj⟩ := h
  exact ⟨ha, hb, hc, hd, he, hf, hg, hh, hi, hj⟩

/-- On a plain property segment, `_trace` follows the property when the
value owns it (with the literal-priority flag deciding which of the two
property branches fires) and yields nothing otherwise. -/
theorem jtraceStep_prop (cfg : JPConfig) (ev : JPEvaluator)
    (self : List SegTok → JVal → List String → JVal → Option String →
      Bool → Bool → Except TraceErr (List TraceResult))
    {name : String} (hp : plainProp name)
    (x : List SegTok) (val : JVal) (path : List String) (parent : JVal)
    (ppn : Option String) (hasArr lit : Bool) :
    jtraceStep cfg ev self (.s name) x val path parent ppn hasArr lit
      = if lit && jvTruthy val && jvHasOwn val name then
          self x (jvGet val name) (path ++ [name]) val (some name) hasArr false
        else if !lit && jvTruthy val && jvHasOwn val name then
          self x (jvGet val name) (path ++ [name]) val (some name) hasArr true
        else .ok [] := by
  obtain ⟨h1, h2, h3, h4, h5, h6, h7, h8, h9, h10⟩ := hp
  by_cases hbr : (lit && jvTruthy val && jvHasOwn val name) = true
  · simp only [jtraceStep, SegTok.isStr, Bool.not_true, Bool.false_or,
      hasOwnTok, jvGetTok, SegTok.str]
    rw [if_pos hbr, if_pos hbr]
  · simp only [jtraceStep, SegTok.isStr, Bool.not_true, Bool.false_or,
      hasOwnTok, jvGetTok, SegTok.str]
    rw [if_neg hbr, if_neg hbr]
    simp [h1, h2, h3, h4, h5, h6, h7, h8, h9, h10]

/-- One full `_trace` step through a plain owned property: the segment
is consumed, the value and path advance, and the literal-priority flag
flips. -/
theorem jtrace_prop_step (cfg : JPConfig) (ev : JPEvaluator) (f : Nat)
    {name : String} (hp : plainProp name) {val : JVal}
    (htr : jvTruthy val = true) (hown : jvHasOwn val name = true)
    (x : List SegTok) (path : List String) (parent : JVal)
    (ppn : Option String) (hasArr lit : Bool) :
    jtrace cfg ev (f + 1) (.s name :: x) val path parent ppn hasArr lit
      = jtrace cfg ev f x (jvGet val name) (path ++ [name]) val (some name)
          hasArr (!lit) := by
  rw [jtrace_succ, jtraceStep_prop cfg ev _ hp]
  cases lit
  · simp [htr, hown]
  · simp [htr, hown]

theorem stringMk_toList_append_nil (s : String) :
    String.mk (s.toList ++ []) = s := by
  rw [List.append_nil]
  rfl

/-- The template scanner on the exact template `"{$.missing}"` fires
its callback once, on the captured path `$.missing`. -/
theorem scanTemplates_missing (cb : String → String × List String) :
    scanTemplates cb none "{$.missing}".toList
      = ((cb "$.missing").1.toList ++ [], (cb "$.missing").2 ++ []) := by
  with_unfolding_all rfl

/-- The template scanner on the exact template `"{$.k}"`. -/
theorem scanTemplates_k (cb : String → String × List String) :
    scanTemplates cb none "{$.k}".toList
      = ((cb "$.k").1.toList ++ [], (cb "$.k").2 ++ []) := by
  with_unfolding_all rfl

/-- The template scanner on the exact template `"{$.sgnl.time.now}"`. -/
theorem scanTemplates_now (cb : String → String × List String) :
    scanTemplates cb none "{$.sgnl.time.now}".toList
      = ((cb "$.sgnl.time.now").1.toList ++ [], (cb "$.sgnl.time.now").2 ++ []) := by
  with_unfolding_all rfl

/-- The template scanner on the exact template `"{$.sgnl.random.uuid}"`. -/
theorem scanTemplates_uuid (cb : String → String × List String) :
    scanTemplates cb none "{$.sgnl.random.uuid}".toList
      = ((cb "$.sgnl.random.uuid").1.toList ++ [],
         (cb "$.sgnl.random.uuid").2 ++ []) := by
  with_unfolding_all rfl

/-- Evaluating a three-property dotted query `$.a.b.c` against nested
objects that own the chain follows the three lookups and returns the
final value bare (`wrap: false`, no array-expression segment on the
way). -/
theorem evaluateSegs_props3 (ev : JPEvaluator) (f : Nat)
    {a b c : String} (hpa : plainProp a) (hpb : plainProp b)
    (hpc : plainProp c) {l0 l1 l2 : List (String × JVal)} {v : JVal}
    (h1 : lookupField a l0 = some (.obj l1))
    (h2 : lookupField b l1 = some (.obj l2))
    (h3 : lookupField c l2 = some v) :
    evaluateSegs ⟨false, false, true⟩ ev (f + 4) (.obj l0)
      [.s "$", .s a, .s b, .s c] = .ok v := by
  simp only [evaluateSegs, shiftDollar]
  rw [if_pos (by simp)]
  rw [show f + 4 = (f + 3) + 1 from rfl,
    jtrace_prop_step _ _ _ hpa (show jvTruthy (JVal.obj l0) = true from rfl)
      (by simp [jvHasOwn, hasOwnFields, h1]),
    show jvGet (JVal.obj l0) a = .obj l1 from by simp [jvGet, h1],
    show f + 3 = (f + 2) + 1 from rfl,
    jtrace_prop_step _ _ _ hpb (show jvTruthy (JVal.obj l1) = true from rfl)
      (by simp [jvHasOwn, hasOwnFields, h2]),
    show jvGet (JVal.obj l1) b = .obj l2 from by simp [jvGet, h2],
    show f + 2 = (f + 1) + 1 from rfl,
    jtrace_prop_step _ _ _ hpc (show jvTruthy (JVal.obj l2) = true from rfl)
      (by simp [jvHasOwn, hasOwnFields, h3]),
    show jvGet (JVal.obj l2) c = v from by simp [jvGet, h3],
    jtrace_nil]
  rfl

/-- C3: For every context in which the path `$.missing` does not
resolve, resolving the exact-template string `"{$.missing}"` with
`omitNoValueForExactTemplates: true` returns the empty string and
records exactly one error containing "field not found"; with the flag
`false`, the same resolution returns the literal marker text
`{No Value}` and records the same single error.  Errors are
accumulated in the returned list — the resolver's return type is a
plain pair, nothing is thrown. -/
theorem claim_C3 (ev : JPEvaluator) (fuel : Nat) (ctx : JVal)
    (hnf : (extractJsonPathValue ev fuel ctx "$.missing").2 = false) :
    resolveTemplateString ev fuel "{$.missing}" ctx true
      = ("", ["failed to extract field '$.missing': field not found"])
    ∧ resolveTemplateString ev fuel "{$.missing}" ctx false
      = (NO_VALUE_PLACEHOLDER,
         ["failed to extract field '$.missing': field not found"]) := by
  have hcb1 : templateCallback ev fuel ctx (isExactTemplate "{$.missing}")
      true "$.missing"
      = ("", ["failed to extract field '$.missing': field not found"]) := by
    rw [show isExactTemplate "{$.missing}" = true from by with_unfolding_all rfl]
    simp only [templateCallback, hnf]
    with_unfolding_all rfl
  have hcb2 : templateCallback ev fuel ctx (isExactTemplate "{$.missing}")
      false "$.missing"
      = (NO_VALUE_PLACEHOLDER,
         ["failed to extract field '$.missing': field not found"]) := by
    rw [show isExactTemplate "{$.missing}" = true from by with_unfolding_all rfl]
    simp only [templateCallback, hnf]
    with_unfolding_all rfl
  refine ⟨?_, ?_⟩
  · simp only [resolveTemplateString, scanTemplates_missing, hcb1]
    simp [stringMk_toList_append_nil]
  · simp only [resolveTemplateString, scanTemplates_missing, hcb2]
    simp [stringMk_toList_append_nil]

theorem claim_C3_witness :
    (extractJsonPathValue jpNoEval 4 (.obj []) "$.missing").2 = false
    ∧ resolveTemplateString jpNoEval 4 "{$.missing}" (.obj []) true
        = ("", ["failed to extract field '$.missing': field not found"])
    ∧ resolveTemplateString jpNoEval 4 "{$.missing}" (.obj []) false
        = (NO_VALUE_PLACEHOLDER,
           ["failed to extract field '$.missing': field not found"]) :=
  ⟨by with_unfolding_all rfl,
   (claim_C3 jpNoEval 4 (.obj []) (by with_unfolding_all rfl)).1,
   (claim_C3 jpNoEval 4 (.obj []) (by with_unfolding_all rfl)).2⟩

/-- C9: For every context object and placeholder path whose JSONPath
evaluation yields `null` (or raises any error), the extraction step
reports the field as not found — `(null, found: false)` — so the
placeholder is treated exactly like a missing field: the callback
records a "field not found" error and substitutes the marker (or the
empty string under exact-template omission); concretely, `{$.k}`
against `{"k": null}` yields the marker and that error even though the
context owns the key `k`. -/
theorem claim_C9 (ev : JPEvaluator) (fuel : Nat) (ctx : JVal) (p : String) :
    (evaluateSegs ⟨false, false, true⟩ ev fuel ctx
        (toPathArrayDotted (normalizeJsonPath p)) = .ok .null →
      extractJsonPathValue ev fuel ctx p = (.null, false))
    ∧ (∀ e, evaluateSegs ⟨false, false, true⟩ ev fuel ctx
        (toPathArrayDotted (normalizeJsonPath p)) = .error e →
      extractJsonPathValue ev fuel ctx p = (.null, false))
    ∧ (∀ isExact omitNV : Bool, (extractJsonPathValue ev fuel ctx p).2 = false →
      templateCallback ev fuel ctx isExact omitNV p
        = (if isExact && omitNV then "" else NO_VALUE_PLACEHOLDER,
           ["failed to extract field '" ++ p ++ "': field not found"]))
    ∧ (∀ f : Nat,
      resolveTemplateString ev (f + 2) "{$.k}" (.obj [("k", JVal.null)]) false
        = (NO_VALUE_PLACEHOLDER,
           ["failed to extract field '$.k': field not found"])) := by
  refine ⟨?_, ?_, ?_, ?_⟩
  · intro h
    simp only [extractJsonPathValue, h]
  · intro e h
    simp only [extractJsonPathValue, h]
  · intro isExact omitNV h
    simp only [templateCallback, h]
    cases isExact <;> cases omitNV <;> simp
  · intro f
    have heval : evaluateSegs ⟨false, false, true⟩ ev (f + 2)
        (.obj [("k", JVal.null)]) (toPathArrayDotted (normalizeJsonPath "$.k"))
        = .ok .null := by
      rw [show toPathArrayDotted (normalizeJsonPath "$.k")
          = [.s "$", .s "k"] from by with_unfolding_all rfl]
      simp only [evaluateSegs, shiftDollar]
      rw [if_pos (by simp)]
      rw [show f + 2 = (f + 1) + 1 from rfl,
        jtrace_prop_step _ _ _ (plainProp_of_B (by with_unfolding_all rfl))
          (show jvTruthy (JVal.obj [("k", JVal.null)]) = true from rfl)
          (by simp [jvHasOwn, hasOwnFields, lookupField]),
        show jvGet (JVal.obj [("k", JVal.null)]) "k" = JVal.null from by
          simp [jvGet, lookupField],
        jtrace_nil]
      rfl
    have hex : extractJsonPathValue ev (f + 2) (.obj [("k", JVal.null)]) "$.k"
        = (.null, false) := by
      simp only [extractJsonPathValue, heval]
    have hcb : templateCallback ev (f + 2) (.obj [("k", JVal.null)])
        (isExactTemplate "{$.k}") false "$.k"
        = (NO_VALUE_PLACEHOLDER,
           ["failed to extract field '$.k': field not found"]) := by
      rw [show isExactTemplate "{$.k}" = true from by with_unfolding_all rfl]
      simp only [templateCallback, hex]
      with_unfolding_all rfl
    simp only [resolveTemplateString, scanTemplates_k, hcb]
    simp [stringMk_toList_append_nil]

theorem claim_C9_witness :
    extractJsonPathValue jpNoEval 5 (.obj [("k", JVal.null)]) "$.k"
      = (.null, false)
    ∧ resolveTemplateString jpNoEval 5 "{$.k}" (.obj [("k", JVal.null)]) false
      = (NO_VALUE_PLACEHOLDER,
         ["failed to extract field '$.k': field not found"]) :=
  ⟨(claim_C9 jpNoEval 5 (.obj [("k", JVal.null)]) "$.k").1
      (by with_unfolding_all rfl),
   (claim_C9 jpNoEval 5 (.obj [("k", JVal.null)]) "$.k").2.2.2 3⟩

/-- C7: The reserved `sgnl` namespace is injected into the job context
exactly once per top-level call — both elements of the input resolve
against the one context built from the single per-call timestamp and
UUID — and caller-supplied values under the namespace win: if the
caller's context already holds `sgnl.time.now`, the placeholder
`{$.sgnl.time.now}` resolves to the caller's value; when the caller
supplies no `sgnl` entry, the placeholders resolve to the injected
timestamp and UUID. -/
theorem claim_C7 (ev : JPEvaluator) (efuel f : Nat) (now uuid : String)
    (ctx : List (String × JVal)) :
    (∀ (s : String) (g : Nat),
      resolveJsonPathTemplates ev efuel (g + 2) now uuid
          (.arr [.str s, .str s]) ctx false true
        = (.arr [.str (resolveTemplateString ev efuel s
              (.obj (injectSgnlNamespace now uuid ctx)) false).1,
            .str (resolveTemplateString ev efuel s
              (.obj (injectSgnlNamespace now uuid ctx)) false).1],
           (resolveTemplateString ev efuel s
              (.obj (injectSgnlNamespace now uuid ctx)) false).2
             ++ (resolveTemplateString ev efuel s
              (.obj (injectSgnlNamespace now uuid ctx)) false).2))
    ∧ (∀ (sf tf : List (String × JVal)) (vs : String) (omitNV : Bool),
        lookupField "sgnl" ctx = some (.obj sf) →
        lookupField "time" sf = some (.obj tf) →
        (tf.map Prod.fst).Nodup →
        lookupField "now" tf = some (.str vs) → ¬(vs = "") →
        resolveTemplateString ev (f + 4) "{$.sgnl.time.now}"
          (.obj (injectSgnlNamespace now uuid ctx)) omitNV = (vs, []))
    ∧ (lookupField "sgnl" ctx = none → ¬(now = "") → ¬(uuid = "") →
        (∀ omitNV : Bool, resolveTemplateString ev (f + 4) "{$.sgnl.time.now}"
            (.obj (injectSgnlNamespace now uuid ctx)) omitNV = (now, []))
        ∧ (∀ omitNV : Bool, resolveTemplateString ev (f + 4)
            "{$.sgnl.random.uuid}"
            (.obj (injectSgnlNamespace now uuid ctx)) omitNV = (uuid, []))) := by
  refine ⟨?_, ?_, ?_⟩
  · intro s g
    simp only [resolveJsonPathTemplates]
    rw [if_pos trivial, show g + 2 = (g + 1) + 1 from rfl]
    simp [resolveValue, resolveEach]
  · intro sf tf vs omitNV hsgnl htime hnd hnow hvs
    have h1 : lookupField "sgnl" (injectSgnlNamespace now uuid ctx)
        = some (.obj (setKey (setKey sf "time"
            (.obj (objectSpread [("now", .str now)] tf)))
          "random" (.obj (objectSpread [("uuid", .str uuid)]
            (objFieldsOf sf "random"))))) := by
      simp [injectSgnlNamespace, lookup_setKey_self, objFieldsOf, hsgnl, htime]
    have h2 : lookupField "time" (setKey (setKey sf "time"
          (.obj (objectSpread [("now", .str now)] tf)))
        "random" (.obj (objectSpread [("uuid", .str uuid)]
          (objFieldsOf sf "random"))))
        = some (.obj (objectSpread [("now", .str now)] tf)) := by
      rw [lookup_setKey_ne (by decide), lookup_setKey_self]
    have h3 : lookupField "now" (objectSpread [("now", .str now)] tf)
        = some (.str vs) := by
      rw [lookup_objectSpread _ hnd]
      simp [hnow]
    have heval := evaluateSegs_props3 ev f
      (plainProp_of_B (by with_unfolding_all rfl))
      (plainProp_of_B (by with_unfolding_all rfl))
      (plainProp_of_B (by with_unfolding_all rfl)) h1 h2 h3
    have hex : extractJsonPathValue ev (f + 4)
        (.obj (injectSgnlNamespace now uuid ctx)) "$.sgnl.time.now"
        = (.str vs, true) := by
      simp only [extractJsonPathValue]
      rw [show toPathArrayDotted (normalizeJsonPath "$.sgnl.time.now")
          = [.s "$", .s "sgnl", .s "time", .s "now"] from by
            with_unfolding_all rfl,
        heval]
    have hcb : templateCallback ev (f + 4)
        (.obj (injectSgnlNamespace now uuid ctx))
        (isExactTemplate "{$.sgnl.time.now}") omitNV "$.sgnl.time.now"
        = (vs, []) := by
      simp only [templateCallback, hex]
      simp [valueToString, hvs]
    simp only [resolveTemplateString, scanTemplates_now, hcb]
    simp [stringMk_toList_append_nil]
  · intro hnone hnowne huuidne
    have hsf : objFieldsOf ctx "sgnl" = [] := by simp [objFieldsOf, hnone]
    have h1 : lookupField "sgnl" (injectSgnlNamespace now uuid ctx)
        = some (.obj [("time", JVal.obj [("now", JVal.str now)]),
            ("random", JVal.obj [("uuid", JVal.str uuid)])]) := by
      simp only [injectSgnlNamespace, hsf]
      rw [lookup_setKey_self]
      with_unfolding_all rfl
    constructor
    · intro omitNV
      have h2 : lookupField "time" [("time", JVal.obj [("now", JVal.str now)]),
          ("random", JVal.obj [("uuid", JVal.str uuid)])]
          = some (.obj [("now", JVal.str now)]) := by with_unfolding_all rfl
      have h3 : lookupField "now" [("now", JVal.str now)]
          = some (.str now) := by with_unfolding_all rfl
      have heval := evaluateSegs_props3 ev f
        (plainProp_of_B (by with_unfolding_all rfl))
        (plainProp_of_B (by with_unfolding_all rfl))
        (plainProp_of_B (by with_unfolding_all rfl)) h1 h2 h3
      have hex : extractJsonPathValue ev (f + 4)
          (.obj (injectSgnlNamespace now uuid ctx)) "$.sgnl.time.now"
          = (.str now, true) := by
        simp only [extractJsonPathValue]
        rw [show toPathArrayDotted (normalizeJsonPath "$.sgnl.time.now")
            = [.s "$", .s "sgnl", .s "time", .s "now"] from by
              with_unfolding_all rfl,
          heval]
      have hcb : templateCallback ev (f + 4)
          (.obj (injectSgnlNamespace now uuid ctx))
          (isExactTemplate "{$.sgnl.time.now}") omitNV "$.sgnl.time.now"
          = (now, []) := by
        simp only [templateCallback, hex]
        simp [valueToString, hnowne]
      simp only [resolveTemplateString, scanTemplates_now, hcb]
      simp [stringMk_toList_append_nil]
    · intro omitNV
      have h2 : lookupField "random"
          [("time", JVal.obj [("now", JVal.str now)]),
           ("random", JVal.obj [("uuid", JVal.str uuid)])]
          = some (.obj [("uuid", JVal.str uuid)]) := by with_unfolding_all rfl
      have h3 : lookupField "uuid" [("uuid", JVal.str uuid)]
          = some (.str uuid) := by with_unfolding_all rfl
      have heval := evaluateSegs_props3 ev f
        (plainProp_of_B (by with_unfolding_all rfl))
        (plainProp_of_B (by with_unfolding_all rfl))
        (plainProp_of_B (by with_unfolding_all rfl)) h1 h2 h3
      have hex : extractJsonPathValue ev (f + 4)
          (.obj (injectSgnlNamespace now uuid ctx)) "$.sgnl.random.uuid"
          = (.str uuid, true) := by
        simp only [extractJsonPathValue]
        rw [show toPathArrayDotted (normalizeJsonPath "$.sgnl.random.uuid")
            = [.s "$", .s "sgnl", .s "random", .s "uuid"] from by
              with_unfolding_all rfl,
          heval]
      have hcb : templateCallback ev (f + 4)
          (.obj (injectSgnlNamespace now uuid ctx))
          (isExactTemplate "{$.sgnl.random.uuid}") omitNV "$.sgnl.random.uuid"
          = (uuid, []) := by
        simp only [templateCallback, hex]
        simp [valueToString, huuidne]
      simp only [resolveTemplateString, scanTemplates_uuid, hcb]
      simp [stringMk_toList_append_nil]

theorem claim_C7_witness :
    resolveJsonPathTemplates jpNoEval 1 2 "NOW" "UU"
        (.arr [.str "x", .str "x"]) [] false true
      = (.arr [.str (resolveTemplateString jpNoEval 1 "x"
            (.obj (injectSgnlNamespace "NOW" "UU" [])) false).1,
          .str (resolveTemplateString jpNoEval 1 "x"
            (.obj (injectSgnlNamespace "NOW" "UU" [])) false).1],
         (resolveTemplateString jpNoEval 1 "x"
            (.obj (injectSgnlNamespace "NOW" "UU" [])) false).2
           ++ (resolveTemplateString jpNoEval 1 "x"
            (.obj (injectSgnlNamespace "NOW" "UU" [])) false).2)
    ∧ resolveTemplateString jpNoEval 4 "{$.sgnl.time.now}"
        (.obj (injectSgnlNamespace "NOW" "UU"
          [("sgnl", JVal.obj [("time", JVal.obj [("now", JVal.str "CALLER")])])]))
        false = ("CALLER", [])
    ∧ resolveTemplateString jpNoEval 4 "{$.sgnl.time.now}"
        (.obj (injectSgnlNamespace "NOW" "UU" [])) false = ("NOW", [])
    ∧ resolveTemplateString jpNoEval 4 "{$.sgnl.random.uuid}"
        (.obj (injectSgnlNamespace "NOW" "UU" [])) false = ("UU", []) :=
  ⟨(claim_C7 jpNoEval 1 0 "NOW" "UU" []).1 "x" 0,
   (claim_C7 jpNoEval 1 0 "NOW" "UU"
       [("sgnl", JVal.obj [("time", JVal.obj [("now", JVal.str "CALLER")])])]).2.1
     [("time", JVal.obj [("now", JVal.str "CALLER")])]
     [("now", JVal.str "CALLER")] "CALLER" false
     (by with_unfolding_all rfl) (by with_unfolding_all rfl) (by simp)
     (by with_unfolding_all rfl) (by decide),
   ((claim_C7 jpNoEval 1 0 "NOW" "UU" []).2.2 rfl (by decide) (by decide)).1 false,
   ((claim_C7 jpNoEval 1 0 "NOW" "UU" []).2.2 rfl (by decide) (by decide)).2 false⟩

theorem resolveEach_fst (rf : JVal → JVal × List String) (items : List JVal) :
    (resolveEach rf items).1 = items.map (fun it => (rf it).1) := by
  induction items with
  | nil => rfl
  | cons hd tl ih => simp [resolveEach, ih]

theorem resolveFields_key_mem {rf : JVal → JVal × List String} {o : Bool}
    {fields : List (String × JVal)} {k : String} {w : JVal}
    (h : (k, w) ∈ (resolveFields rf o fields).1) :
    k ∈ fields.map Prod.fst := by
  induction fields with
  | nil => simp [resolveFields] at h
  | cons hd tl ih =>
    obtain ⟨k0, v0⟩ := hd
    simp only [resolveFields] at h
    by_cases hc : (o && isOmittedVal (rf v0).1) = true
    · rw [if_pos hc] at h
      simp only [List.map_cons]
      exact List.mem_cons_of_mem _ (ih h)
    · rw [if_neg hc] at h
      simp only [List.map_cons]
      rcases List.mem_cons.mp h with heq | hmem'
      · have hk : k = k0 := congrArg Prod.fst heq
        subst hk
        exact List.mem_cons_self _ _
      · exact List.mem_cons_of_mem _ (ih hmem')

theorem resolveFields_not_mem {rf : JVal → JVal × List String}
    {fields : List (String × JVal)} {k : String} {v : JVal}
    (hnd : (fields.map Prod.fst).Nodup) (hmem : (k, v) ∈ fields)
    (hom : isOmittedVal (rf v).1 = true) (w : JVal) :
    ¬((k, w) ∈ (resolveFields rf true fields).1) := by
  induction fields with
  | nil => simp at hmem
  | cons hd tl ih =>
    obtain ⟨k0, v0⟩ := hd
    simp only [List.map_cons, List.nodup_cons] at hnd
    intro hcon
    simp only [resolveFields] at hcon
    rcases List.mem_cons.mp hmem with heq | hmem'
    · rw [Prod.mk.injEq] at heq
      obtain ⟨hk, hv⟩ := heq
      subst hk
      subst hv
      rw [if_pos (by simp [hom])] at hcon
      exact hnd.1 (resolveFields_key_mem hcon)
    · have hktl : k ∈ tl.map Prod.fst := by
        simpa using List.mem_map_of_mem Prod.fst hmem'
      by_cases hc : (true && isOmittedVal (rf v0).1) = true
      · rw [if_pos hc] at hcon
        exact ih hnd.2 hmem' hcon
      · rw [if_neg hc] at hcon
        rcases List.mem_cons.mp hcon with heq2 | hmem2
        · have : k = k0 := congrArg Prod.fst heq2
          exact hnd.1 (this ▸ hktl)
        · exact ih hnd.2 hmem' hmem2

theorem resolveFields_mem {rf : JVal → JVal × List String}
    {fields : List (String × JVal)} {k : String} {v : JVal}
    (hmem : (k, v) ∈ fields) (hom : isOmittedVal (rf v).1 = false) :
    (k, (rf v).1) ∈ (resolveFields rf true fields).1 := by
  induction fields with
  | nil => simp at hmem
  | cons hd tl ih =>
    obtain ⟨k0, v0⟩ := hd
    simp only [resolveFields]
    rcases List.mem_cons.mp hmem with heq | hmem'
    · rw [Prod.mk.injEq] at heq
      obtain ⟨hk, hv⟩ := heq
      subst hk
      subst hv
      rw [if_neg (by simp [hom])]
      exact List.mem_cons_self _ _
    · by_cases hc : (true && isOmittedVal (rf v0).1) = true
      · rw [if_pos hc]
        exact ih hmem'
      · rw [if_neg hc]
        exact List.mem_cons_of_mem _ (ih hmem')

/-- C6: With the omission configuration enabled, resolving a mapping
drops exactly the entries whose recursively resolved value is the empty
string or the `{No Value}` marker (the key is absent, not mapped to an
empty value) and keeps every other entry with its resolved value; and
resolving an array keeps, in order, exactly the resolved elements that
are neither the empty string nor the marker. -/
theorem claim_C6 (ev : JPEvaluator) (efuel rfuel : Nat) (ctx : JVal) :
    (∀ fields : List (String × JVal),
      resolveValue ev efuel ctx true (rfuel + 1) (.obj fields)
        = (.obj (resolveFields (resolveValue ev efuel ctx true rfuel)
            true fields).1,
           (resolveFields (resolveValue ev efuel ctx true rfuel)
            true fields).2))
    ∧ (∀ (fields : List (String × JVal)) (k : String) (v : JVal),
        (fields.map Prod.fst).Nodup → (k, v) ∈ fields →
        isOmittedVal (resolveValue ev efuel ctx true rfuel v).1 = true →
        ∀ w : JVal, ¬((k, w) ∈ (resolveFields
            (resolveValue ev efuel ctx true rfuel) true fields).1))
    ∧ (∀ (fields : List (String × JVal)) (k : String) (v : JVal),
        (k, v) ∈ fields →
        isOmittedVal (resolveValue ev efuel ctx true rfuel v).1 = false →
        (k, (resolveValue ev efuel ctx true rfuel v).1)
          ∈ (resolveFields (resolveValue ev efuel ctx true rfuel)
              true fields).1)
    ∧ (∀ items : List JVal,
        resolveValue ev efuel ctx true (rfuel + 1) (.arr items)
          = (.arr ((items.map (fun it =>
                (resolveValue ev efuel ctx true rfuel it).1)).filter
              (fun item => !(isOmittedVal item))),
             (resolveEach (resolveValue ev efuel ctx true rfuel) items).2)) := by
  refine ⟨?_, ?_, ?_, ?_⟩
  · intro fields
    simp [resolveValue]
  · intro fields k v hnd hmem hom w
    exact resolveFields_not_mem hnd hmem hom w
  · intro fields k v hmem hom
    exact resolveFields_mem hmem hom
  · intro items
    simp [resolveValue, resolveEach_fst]

theorem claim_C6_witness :
    ¬(("a", JVal.str "X") ∈ (resolveFields
        (resolveValue jpNoEval 3 (.obj []) true 1) true
        [("a", JVal.str ""), ("b", JVal.str "keep")]).1)
    ∧ ("b", JVal.str "keep") ∈ (resolveFields
        (resolveValue jpNoEval 3 (.obj []) true 1) true
        [("a", JVal.str ""), ("b", JVal.str "keep")]).1
    ∧ resolveValue jpNoEval 3 (.obj []) true (1 + 1)
        (.arr [JVal.str "", JVal.str "keep"])
      = (.arr [JVal.str "keep"],
         (resolveEach (resolveValue jpNoEval 3 (.obj []) true 1)
           [JVal.str "", JVal.str "keep"]).2) :=
  ⟨(claim_C6 jpNoEval 3 1 (.obj [])).2.1 _ "a" (JVal.str "")
      (by decide) (List.mem_cons_self _ _) (by with_unfolding_all rfl)
      (JVal.str "X"),
   (claim_C6 jpNoEval 3 1 (.obj [])).2.2.1 _ "b" (JVal.str "keep")
      (List.mem_cons_of_mem _ (List.mem_cons_self _ _))
      (by with_unfolding_all rfl),
   by
     rw [(claim_C6 jpNoEval 3 1 (.obj [])).2.2.2]
     with_unfolding_all rfl⟩
